import Mathlib

/-!
Verification of the insig incremental generative-scene engine.

Shallow embedding of the repository's core components:

* `stepHash`              — /js/render/diff-renderer.js (v0.5 section), lines 175–183
* the five stroke generators and `applyCharRule`
                          — same file, lines 192–390
* `buildScene` / `nextId` — /js/engine/scene-builder.js
* the live state machine (`renderFromText`, `handleLiveTextChange`,
  `clearLiveState`)       — /js/render/diff-renderer.js (v0.5 section), lines 115–476
* the DOM diff renderer `renderSceneDiff`
                          — src/unnamed/part_000 (diff-renderer v0.3)

JavaScript numbers are modelled by `Rat` (exact rationals); the 32-bit
integer pipeline of `stepHash` is modelled by `Nat` with explicit
`% 2^32` where JS applies ToInt32/ToUint32.  `Math.cos`, `Math.sin` and
`Math.PI` are pure in JS; they are modelled by an explicit bundle of
fixed functions (`MathOracle`) threaded through the geometry.

`makeRNG` and `buildParamsFromText` live in /js/engine/text-seed.js,
which is not among the provided sources; they are modelled from the
spec (§4.1, §6) and marked as such in their doc comments.
-/

/-- Truncation of a JS 32-bit unsigned value: `x >>> 0` / ToUint32. -/
def u32 (x : Nat) : Nat := x % 4294967296

/-- `stepHash` from /js/render/diff-renderer.js lines 175–183:
```js
let h = current ^ (chCode + index * 0x45d9f3b);
h ^= h >>> 15;
h = Math.imul(h, 0x85ebca6b);
h ^= h >>> 13;
h = Math.imul(h, 0xc2b2ae35);
h ^= h >>> 16;
return h >>> 0;
```
`^`/`>>>` operate on the 32-bit pattern (ToInt32/ToUint32: identical bit
patterns, modelled by `% 2^32`); `Math.imul` is multiplication mod 2^32. -/
def stepHash (current chCode index : Nat) : Nat :=
  let h0 := u32 current ^^^ u32 (chCode + index * 0x45d9f3b)
  let h1 := h0 ^^^ (h0 >>> 15)
  let h2 := u32 (h1 * 0x85ebca6b)
  let h3 := h2 ^^^ (h2 >>> 13)
  let h4 := u32 (h3 * 0xc2b2ae35)
  h4 ^^^ (h4 >>> 16)

/-- Modelled from the spec: `makeRNG` lives in /js/engine/text-seed.js which is
not part of the provided sources.  §4.1 requires a seedable deterministic
PRNG (xorshift family suggested) returning floats in `[0,1)`; we model one
xorshift32 step over a 32-bit state. -/
def xs32 (x : Nat) : Nat :=
  let a := u32 (x ^^^ (x <<< 13))
  let b := u32 (a ^^^ (a >>> 17))
  u32 (b ^^^ (b <<< 5))

/-- Modelled from the spec: initial internal state of `makeRNG seed`. -/
def rngInit (seed : Nat) : Nat := u32 seed

/-- JS `String.prototype.trim` whitespace test (core ASCII subset; the
claims only exercise these characters). -/
def isJsSpace (c : Char) : Bool :=
  c == ' ' || c == '\t' || c == '\n' || c == '\r' || c == '\x0b' || c == '\x0c'

/-- JS `text.trim()` over a character list. -/
def jsTrim (s : List Char) : List Char :=
  ((s.dropWhile isJsSpace).reverse.dropWhile isJsSpace).reverse

/-- JS `l.startsWith(p)`. -/
def startsWithL (l p : List Char) : Bool := decide (l.take p.length = p)

/-- Element identifiers.  The source builds id strings from counters:
`nextId(layer)` yields `` `${layer}-${idCounter}` `` (scene-builder.js
lines 7–11) and `liveId(prefix, index, k)` yields
`` `live-${prefix}-${index}-${k}-${liveIdCounter}` `` (diff-renderer.js
v0.5 lines 185–189).  We keep the template fields structurally; rendering
is injective on the ids actually generated (scene layers are drawn from a
fixed dash-free-suffix set never equal to "live", live prefixes from a
fixed dash-free set, and the trailing component is the decimal counter). -/
inductive ElemId where
  | scene (layer : String) (n : Nat)
  | live (pfx : String) (index : Nat) (k : Nat) (n : Nat)
deriving DecidableEq, Repr

/-- The counter component of an id (the value of the global counter at
creation time). -/
def idCtrOf : ElemId → Nat
  | .scene _ n => n
  | .live _ _ _ n => n

/-- The live counter of an id: the trailing `liveIdCounter` for live ids,
`0` for scene ids (scene ids never collide with live ids). -/
def liveCtrOf : ElemId → Nat
  | .scene _ _ => 0
  | .live _ _ _ n => n

/-- The live motif prefix of an id (`"arc"`, `"tw"`, `"pt"`, `"ru"`, `"sp"`). -/
def idPfx : ElemId → Option String
  | .scene _ _ => none
  | .live p _ _ _ => some p

def isLiveId : ElemId → Prop
  | .scene _ _ => False
  | .live _ _ _ _ => True

def isSceneId : ElemId → Prop
  | .scene _ _ => True
  | .live _ _ _ _ => False

instance : DecidablePred isLiveId := by
  intro i; cases i <;> simp [isLiveId] <;> infer_instance

instance : DecidablePred isSceneId := by
  intro i; cases i <;> simp [isSceneId] <;> infer_instance

inductive ElemType where
  | circle | line | path | polygon | ring | defs
deriving DecidableEq, Repr

/-- A visual element.  JS objects carry only the fields each generator
sets; absent fields are `none`.  Path `d` strings (`"M x y L x y …"`) and
polygon `points` strings (`"x,y x,y …"`) are kept as their underlying
coordinate lists. -/
structure Element where
  id : ElemId
  type : ElemType
  layer : Option String := none
  cx : Option Rat := none
  cy : Option Rat := none
  r : Option Rat := none
  x1 : Option Rat := none
  y1 : Option Rat := none
  x2 : Option Rat := none
  y2 : Option Rat := none
  dPts : Option (List (Rat × Rat)) := none
  points : Option (List (Rat × Rat)) := none
  stroke : Option String := none
  strokeWidth : Option Rat := none
  fill : Option String := none
  opacity : Option Rat := none
  blur : Option Bool := none
  gradStops : Option (List (String × String × Rat)) := none
  blurStd : Option Rat := none
deriving DecidableEq, Repr

/-- Named colour roles of the parameter bundle (§3). -/
structure Palette where
  main1 : String
  main2 : String
  main3 : String
  subtle : String
  highlight : String
  backgroundInner : String
  backgroundOuter : String
deriving DecidableEq, Repr

/-- The parameter bundle produced by `buildParamsFromText` (§3). -/
structure Params where
  seed : Nat
  palette : Palette
  symmetry : Nat
  detailLevel : Rat
  structureLevel : Rat
  curveBias : Rat
  accentLevel : Rat
  layoutMode : Nat
deriving DecidableEq, Repr

/-- `Math.cos`, `Math.sin` and `Math.PI` are fixed pure functions in JS;
they are modelled as an explicit bundle so geometry stays exact in `Rat`. -/
structure MathOracle where
  cos : Rat → Rat
  sin : Rat → Rat
  pi : Rat

/-- Generator state shared by the scene builder and the live stroke
generators: a module-global id counter (`idCounter` resp.
`liveIdCounter`), the internal state of the current `makeRNG` closure,
and the output list being pushed to. -/
structure GenSt where
  ctr : Nat
  rng : Nat
  out : List Element

/-- One call of the `rand()` closure produced by `makeRNG`
(modelled from the spec, see `xs32`): advance the state, return
`state / 2^32 ∈ [0,1)`. -/
def rand (s : GenSt) : Rat × GenSt :=
  let x := xs32 s.rng
  ((x : Rat) / 4294967296, { s with rng := x })

/-- `elements.push({id: nextId(layer), …})` resp.
`els.push({id: liveId(pfx, index, k), …})`: bump the counter, build the
element with the fresh id, append it. -/
def emit (mkId : Nat → ElemId) (el : ElemId → Element) (s : GenSt) : GenSt :=
  { s with ctr := s.ctr + 1, out := s.out ++ [el (mkId (s.ctr + 1))] }

/-- `for (let i = 0; i < n; i++) body(i)` over generator state. -/
def applyN (f : Nat → GenSt → GenSt) : Nat → GenSt → GenSt
  | 0 => fun s => s
  | n + 1 => fun s => f n (applyN f n s)

/-- `Math.floor` of a JS number used as a loop bound / count (the
source only floors non-negative quantities in-contract). -/
def ratFloorNat (x : Rat) : Nat := x.floor.toNat

/-! ## Fresh-id production

Every element pushed by the scene builder or a live stroke generator gets
its id from the shared counter, bumped exactly once per push.  `FreshRun P f`
says: running `f` appends a block of new elements whose id counters are
exactly the consecutive values `s.ctr+1, …, s.ctr+k` (in order) and whose
ids all satisfy `P`. -/

def FreshRun (P : ElemId → Prop) (f : GenSt → GenSt) : Prop :=
  ∀ s : GenSt, ∃ new : List Element,
    (f s).out = s.out ++ new ∧
    (f s).ctr = s.ctr + new.length ∧
    new.map (fun e => idCtrOf e.id) = List.range' (s.ctr + 1) new.length ∧
    ∀ e ∈ new, P e.id

theorem freshRun_skip {P} {f : GenSt → GenSt}
    (h : ∀ s, (f s).out = s.out ∧ (f s).ctr = s.ctr) : FreshRun P f := by
  intro s
  refine ⟨[], ?_, ?_, rfl, by simp⟩
  · simpa using (h s).1
  · simpa using (h s).2

theorem freshRun_id {P} : FreshRun P (fun s => s) :=
  freshRun_skip (fun _ => ⟨rfl, rfl⟩)

theorem freshRun_comp {P} {f g : GenSt → GenSt}
    (hf : FreshRun P f) (hg : FreshRun P g) :
    FreshRun P (fun s => g (f s)) := by
  intro s
  obtain ⟨nf, hfo, hfc, hfr, hfP⟩ := hf s
  obtain ⟨ng, hgo, hgc, hgr, hgP⟩ := hg (f s)
  refine ⟨nf ++ ng, ?_, ?_, ?_, ?_⟩
  · rw [hgo, hfo, List.append_assoc]
  · rw [hgc, hfc]; simp [Nat.add_assoc]
  · rw [List.map_append, hfr, hgr, hfc]
    have h2 : s.ctr + nf.length + 1 = s.ctr + 1 + nf.length := by omega
    rw [h2]
    have h3 := List.range'_append (s.ctr + 1) nf.length ng.length 1
    simp only [Nat.one_mul] at h3
    rw [h3, List.length_append, Nat.add_comm ng.length nf.length]
  · intro e he
    rcases List.mem_append.mp he with h | h
    · exact hfP e h
    · exact hgP e h

theorem freshRun_emit {P} (mkId : Nat → ElemId) (el : ElemId → Element)
    (hid : ∀ i, (el i).id = i) (hctr : ∀ n, idCtrOf (mkId n) = n)
    (hP : ∀ n, P (mkId n)) : FreshRun P (emit mkId el) := by
  intro s
  refine ⟨[el (mkId (s.ctr + 1))], rfl, rfl, ?_, ?_⟩
  · simp [hid, hctr, List.range'_one]
  · intro e he
    simp only [List.mem_singleton] at he
    rw [he, hid]
    exact hP _

theorem freshRun_rand {P} {k : Rat → GenSt → GenSt}
    (h : ∀ r, FreshRun P (k r)) :
    FreshRun P (fun s => (fun rs : Rat × GenSt => k rs.1 rs.2) (rand s)) := by
  intro s
  obtain ⟨new, ho, hc, hr, hP⟩ := h (rand s).1 (rand s).2
  exact ⟨new, by simpa [rand] using ho, by simpa [rand] using hc,
    by simpa [rand] using hr, hP⟩

theorem freshRun_applyN {P} {f : Nat → GenSt → GenSt}
    (h : ∀ i, FreshRun P (f i)) : ∀ n, FreshRun P (applyN f n)
  | 0 => freshRun_id
  | n + 1 => by
      have := freshRun_comp (freshRun_applyN h n) (h n)
      simpa [applyN] using this

/-- Counter value never decreases along a `FreshRun`. -/
theorem FreshRun.ctr_le {P} {f : GenSt → GenSt} (h : FreshRun P f)
    (s : GenSt) : s.ctr ≤ (f s).ctr := by
  obtain ⟨new, _, hc, _, _⟩ := h s
  omega

/-- The new block's length is exactly the counter increase. -/
theorem FreshRun.out_len {P} {f : GenSt → GenSt} (h : FreshRun P f)
    (s : GenSt) : (f s).out.length = s.out.length + ((f s).ctr - s.ctr) := by
  obtain ⟨new, ho, hc, _, _⟩ := h s
  rw [ho]; simp; omega

/-- `const x = rand(); k` — draw one value from the current RNG closure. -/
def withRand (k : Rat → GenSt → GenSt) (s : GenSt) : GenSt :=
  k (rand s).1 (rand s).2

theorem freshRun_withRand {P} {k : Rat → GenSt → GenSt}
    (h : ∀ r, FreshRun P (k r)) : FreshRun P (withRand k) := by
  intro s
  obtain ⟨new, ho, hc, hr, hP⟩ := h (rand s).1 (rand s).2
  exact ⟨new, by simpa [withRand, rand] using ho, by simpa [withRand, rand] using hc,
    by simpa [withRand, rand] using hr, hP⟩

theorem isSceneId_scene (l : String) (n : Nat) : isSceneId (.scene l n) := trivial

theorem isLiveId_live (p : String) (i k n : Nat) : isLiveId (.live p i k n) := trivial

/-! ## Full-scene builder — /js/engine/scene-builder.js

`nextId(layer)` (lines 7–11) increments the module-global `idCounter` and
returns `` `${layer}-${idCounter}` ``, modelled by `emit (.scene layer)`.
`buildScene` (lines 14–313) resets that counter and derives a fresh RNG
from `params.seed` before producing the fixed sequence of sections. -/

def radiusBase : Rat := 120
def radiusMax : Rat := 360

/-- The DEFS descriptor (lines 25–44): background gradient stops built
from the palette plus the `softBlur` filter (stdDeviation 11); the
constant gradient geometry strings (`cx:"50%"` …) carry no information. -/
def defsElement (p : Params) : ElemId → Element := fun j =>
  { id := j, type := .defs,
    gradStops := some [("0%", p.palette.backgroundInner, 1),
                       ("100%", p.palette.backgroundOuter, 1)],
    blurStd := some 11 }

/-- One RINGS iteration (lines 51–67). -/
def ringBody (p : Params) (ringCount : Nat) (i : Nat) : GenSt → GenSt :=
  withRand fun w s =>
    let t : Rat := (i : Rat) / ((max (ringCount - 1) 1 : Nat) : Rat)
    let wobble := (w - 0.5) * 6
    let r := radiusBase + t * (radiusMax - radiusBase) + wobble
    emit (.scene "ring") (fun j =>
      { id := j, type := .ring, layer := some "rings", cx := some 500, cy := some 500,
        r := some r,
        stroke := some (if i % 2 = 0 then p.palette.main1 else p.palette.main2),
        strokeWidth := some (5 + (1 - t) * 12 / (p.symmetry : Rat)),
        opacity := some (0.18 + 0.32 * (1 - t)),
        blur := some (decide (i % 3 = 0 ∧ 0 < i)) }) s

def buildRings (p : Params) (s : GenSt) : GenSt :=
  let baseRingCount := 3 + ratFloorNat p.detailLevel
  let extraRings := ratFloorNat (p.structureLevel * 4)
  let ringCount := min (baseRingCount + extraRings) 9
  applyN (ringBody p ringCount) ringCount s

/-- One ORBIT LINES iteration (lines 71–87). -/
def orbitBody (p : Params) (orbitCount : Nat) (i : Nat) : GenSt → GenSt :=
  withRand fun w s =>
    let t : Rat := ((i : Rat) + 1) / ((orbitCount : Rat) + 1)
    let wobble := (w - 0.5) * 4
    let r := radiusBase + 30 + t * (radiusMax - radiusBase - 60) + wobble
    emit (.scene "orbit") (fun j =>
      { id := j, type := .ring, layer := some "orbits", cx := some 500, cy := some 500,
        r := some r, stroke := some p.palette.subtle, strokeWidth := some 0.9,
        opacity := some 0.12, blur := some false }) s

def buildOrbits (p : Params) (s : GenSt) : GenSt :=
  let orbitCount := 3 + ratFloorNat (p.detailLevel / 2)
  applyN (orbitBody p orbitCount) orbitCount s

/-- One SPOKES iteration (lines 95–115); two draws per spoke
(length jitter, then strokeWidth inside the object literal). -/
def spokeBody (M : MathOracle) (p : Params) (spokeCount : Nat)
    (spokeBaseLen spokeJitter : Rat) (i : Nat) : GenSt → GenSt :=
  withRand fun lr =>
    withRand fun wr s =>
      let t : Rat := (i : Rat) / (spokeCount : Rat)
      let ang := t * M.pi * 2
      let len := spokeBaseLen + (lr - 0.5) * spokeJitter
      let innerR := radiusBase - 16
      let outerR := innerR + len
      emit (.scene "spoke") (fun j =>
        { id := j, type := .line, layer := some "spokes",
          x1 := some (500 + innerR * M.cos ang), y1 := some (500 + innerR * M.sin ang),
          x2 := some (500 + outerR * M.cos ang), y2 := some (500 + outerR * M.sin ang),
          stroke := some p.palette.subtle,
          strokeWidth := some (1.1 + wr * 2.1),
          opacity := some (0.13 + 0.26 * (1 - p.curveBias)) }) s

def buildSpokes (M : MathOracle) (p : Params) (s : GenSt) : GenSt :=
  let spokeDensity := 10 + ratFloorNat (p.detailLevel * 4)
  let spokeCount := min (spokeDensity * p.symmetry) 120
  let spokeBaseLen : Rat := 60 + p.detailLevel * 10
  let spokeJitter : Rat := 26 + p.detailLevel * 7
  applyN (spokeBody M p spokeCount spokeBaseLen spokeJitter) spokeCount s

/-- The line element pushed by every `addBranch` call (lines 126–137). -/
def branchSegEl (p : Params) (depth : Nat) (cx cy x2 y2 : Rat) : ElemId → Element :=
  fun j =>
    { id := j, type := .line, layer := some "branches",
      x1 := some cx, y1 := some cy, x2 := some x2, y2 := some y2,
      stroke := some p.palette.subtle,
      strokeWidth := some (max 0.8 (2.6 - (depth : Rat) * 0.6)),
      opacity := some (0.18 + 0.12 * (depth : Rat)) }

/-- `addBranch` (lines 122–146): push the segment, stop at depth 0,
otherwise draw shrink and spread and recurse on both sides
(`angle + delta` first, then `angle - delta`). -/
def addBranch (M : MathOracle) (p : Params) (spread : Rat) :
    Nat → Rat → Rat → Rat → Rat → GenSt → GenSt
  | 0, cx, cy, angle, len => fun s =>
      let x2 := cx + len * M.cos angle
      let y2 := cy + len * M.sin angle
      emit (.scene "branch") (branchSegEl p 0 cx cy x2 y2) s
  | d + 1, cx, cy, angle, len => fun s =>
      let x2 := cx + len * M.cos angle
      let y2 := cy + len * M.sin angle
      let s := emit (.scene "branch") (branchSegEl p (d + 1) cx cy x2 y2) s
      withRand (fun r1 s =>
        let shrink := 0.68 + r1 * 0.12
        let nextLen := len * shrink
        withRand (fun r2 s =>
          let delta := spread * (0.75 + r2 * 0.4)
          addBranch M p spread d x2 y2 (angle - delta) nextLen
            (addBranch M p spread d x2 y2 (angle + delta) nextLen s)) s) s

/-- One BRANCHES root (lines 148–154). -/
def branchRoot (M : MathOracle) (p : Params) (spread baseBranchLen : Rat)
    (branchDepth : Nat) (i : Nat) (s : GenSt) : GenSt :=
  let baseAngle := ((i : Rat) / (p.symmetry : Rat)) * M.pi * 2
  let startR := radiusBase + 10
  let sx := 500 + startR * M.cos baseAngle
  let sy := 500 + startR * M.sin baseAngle
  addBranch M p spread branchDepth sx sy baseAngle baseBranchLen s

def buildBranches (M : MathOracle) (p : Params) (s : GenSt) : GenSt :=
  let branchDepth := 2 + ratFloorNat (p.detailLevel / 2)
  let baseBranchLen : Rat := 40 + p.detailLevel * 6
  let branchSpread := M.pi / 6 + p.curveBias * (M.pi / 12)
  applyN (branchRoot M p branchSpread baseBranchLen branchDepth) p.symmetry s

/-- One CURVED BANDS group (lines 158–184); the 65-point `d` string is
kept as its coordinate list. -/
def curveBody (M : MathOracle) (p : Params) (g : Nat) : GenSt → GenSt :=
  withRand fun a =>
    withRand fun br =>
      withRand fun bw s =>
        let baseAngle := a * M.pi * 2
        let bandRadius := radiusBase + 40 + br * (radiusMax - radiusBase - 120)
        let bandWidth := 18 + bw * 32
        let segments : Nat := 64
        let parts := (List.range (segments + 1)).map (fun i =>
          let tt : Rat := (i : Rat) / (segments : Rat)
          let ang := baseAngle + (tt - 0.5) * (M.pi * 1.7)
          let wobble := M.sin (tt * M.pi * 4 + (g : Rat)) * 16 * p.curveBias
          let r := bandRadius + wobble
          (500 + r * M.cos ang, 500 + r * M.sin ang))
        emit (.scene "curve") (fun j =>
          { id := j, type := .path, layer := some "curves", dPts := some parts,
            stroke := some p.palette.main3, strokeWidth := some (bandWidth / 11),
            opacity := some (0.2 + 0.18 * p.curveBias), fill := some "none" }) s

def buildCurves (M : MathOracle) (p : Params) (s : GenSt) : GenSt :=
  let curveGroups := 2 + ratFloorNat (p.curveBias * 4)
  applyN (curveBody M p) curveGroups s

/-- One PETALS iteration (lines 190–212); no draws. -/
def petalBody (M : MathOracle) (p : Params) (petalCount : Nat) (i : Nat)
    (s : GenSt) : GenSt :=
  let ang := ((i : Rat) / (petalCount : Rat)) * M.pi * 2
  let petalRadius : Rat := 210
  let cx := 500 + petalRadius * M.cos ang
  let cy := 500 + petalRadius * M.sin ang
  let baseSize := 40 + p.detailLevel * 2
  let innerOffset := M.pi / 2
  let pts := (List.range 4).map (fun k =>
    let a := ang + innerOffset * (k : Rat)
    let sc : Rat := if k % 2 = 0 then 1 else 0.55
    (cx + baseSize * sc * M.cos a, cy + baseSize * sc * M.sin a))
  emit (.scene "petal") (fun j =>
    { id := j, type := .polygon, layer := some "petals", points := some pts,
      fill := some p.palette.main1, opacity := some 0.4 }) s

def buildPetals (M : MathOracle) (p : Params) (s : GenSt) : GenSt :=
  let petalCount := p.symmetry * 2
  applyN (petalBody M p petalCount) petalCount s

/-- One ACCENTS iteration (lines 217–241); four draws, loop index unused. -/
def accentBody (M : MathOracle) (p : Params) : GenSt → GenSt :=
  withRand fun ringT =>
    withRand fun ar =>
      withRand fun sr =>
        withRand fun rr s =>
          let r := radiusBase + 30 + ringT * (radiusMax - radiusBase - 80)
          let ang := ar * M.pi * 2
          let cx := 500 + r * M.cos ang
          let cy := 500 + r * M.sin ang
          let size := 6 + sr * 14
          let rot := rr * M.pi * 2
          let pts := (List.range 3).map (fun k =>
            let a := rot + (k : Rat) * (M.pi * 2 / 3)
            (cx + size * M.cos a, cy + size * M.sin a))
          emit (.scene "accent") (fun j =>
            { id := j, type := .polygon, layer := some "accents", points := some pts,
              fill := some p.palette.highlight, opacity := some 0.6 }) s

def buildAccents (M : MathOracle) (p : Params) (s : GenSt) : GenSt :=
  -- accentCount = Math.min(params.accentLevel * 3, 40); the JS loop
  -- `i < accentCount` runs ⌈accentCount⌉ times for a fractional bound
  let accentCount := (min (p.accentLevel * 3) 40).ceil.toNat
  applyN (fun _ => accentBody M p) accentCount s

/-- CENTER assembly (lines 244–310): background disc, two concentric
rings, inner polygon with side count `[4,5,6,8][layoutMode]`, center dot.
An out-of-range `layoutMode` gives JS `undefined` sides, so the point
loop runs zero times; `getD … 0` reproduces that empty polygon. -/
def buildCenter (M : MathOracle) (p : Params) (s : GenSt) : GenSt :=
  let s := emit (.scene "core-bg") (fun j =>
    { id := j, type := .circle, layer := some "core-bg", cx := some 500, cy := some 500,
      r := some 88, fill := some "url(#bgGradient)", opacity := some 0.96,
      blur := some true }) s
  let s := emit (.scene "center") (fun j =>
    { id := j, type := .circle, layer := some "center", cx := some 500, cy := some 500,
      r := some 76, stroke := some p.palette.main1, strokeWidth := some 3.8,
      fill := some "none", opacity := some 0.96 }) s
  let s := emit (.scene "center") (fun j =>
    { id := j, type := .circle, layer := some "center", cx := some 500, cy := some 500,
      r := some 60, stroke := some p.palette.main2, strokeWidth := some 2.4,
      fill := some "none", opacity := some 0.96 }) s
  let sides : Nat := [4, 5, 6, 8].getD p.layoutMode 0
  let innerRadius : Rat := 36
  let innerRot := M.pi / (sides : Rat)
  let pts := (List.range sides).map (fun i =>
    let ang := innerRot + (i : Rat) * (M.pi * 2 / (sides : Rat))
    (500 + innerRadius * M.cos ang, 500 + innerRadius * M.sin ang))
  let s := emit (.scene "center") (fun j =>
    { id := j, type := .polygon, layer := some "center", points := some pts,
      fill := some p.palette.subtle, opacity := some 0.96 }) s
  emit (.scene "center-dot") (fun j =>
    { id := j, type := .circle, layer := some "center", cx := some 500, cy := some 500,
      r := some (8 + p.curveBias * 12), fill := some p.palette.highlight,
      opacity := some 0.98 }) s

def buildSceneBody (M : MathOracle) (p : Params) (s : GenSt) : GenSt :=
  let s := emit (.scene "defs") (defsElement p) s
  let s := buildRings p s
  let s := buildOrbits p s
  let s := buildSpokes M p s
  let s := buildBranches M p s
  let s := buildCurves M p s
  let s := buildPetals M p s
  let s := buildAccents M p s
  buildCenter M p s

/-- `buildScene(params)` (line 14): line 15 `idCounter = 0` overwrites the
ambient module-global counter, and a fresh RNG stream is derived from
`params.seed` (line 17).  Returns the element list together with the
module counter value it leaves behind. -/
def buildScene (M : MathOracle) (p : Params) (ambientIdCounter : Nat) :
    List Element × Nat :=
  let s0 : GenSt := { ctr := ambientIdCounter, rng := rngInit p.seed, out := [] }
  let s1 : GenSt := { s0 with ctr := 0 }   -- idCounter = 0 (reset every build)
  let s2 := buildSceneBody M p s1
  (s2.out, s2.ctr)

/-! ### Freshness of scene ids -/

theorem freshRun_ringBody (p : Params) (rc i : Nat) :
    FreshRun isSceneId (ringBody p rc i) :=
  freshRun_withRand fun _ =>
    freshRun_emit _ _ (fun _ => rfl) (fun _ => rfl) (fun n => isSceneId_scene _ n)

theorem freshRun_buildRings (p : Params) : FreshRun isSceneId (buildRings p) := by
  unfold buildRings
  exact freshRun_applyN (fun i => freshRun_ringBody p _ i) _

theorem freshRun_orbitBody (p : Params) (oc i : Nat) :
    FreshRun isSceneId (orbitBody p oc i) :=
  freshRun_withRand fun _ =>
    freshRun_emit _ _ (fun _ => rfl) (fun _ => rfl) (fun n => isSceneId_scene _ n)

theorem freshRun_buildOrbits (p : Params) : FreshRun isSceneId (buildOrbits p) := by
  unfold buildOrbits
  exact freshRun_applyN (fun i => freshRun_orbitBody p _ i) _

theorem freshRun_spokeBody (M : MathOracle) (p : Params) (sc : Nat)
    (bl jt : Rat) (i : Nat) : FreshRun isSceneId (spokeBody M p sc bl jt i) :=
  freshRun_withRand fun _ => freshRun_withRand fun _ =>
    freshRun_emit _ _ (fun _ => rfl) (fun _ => rfl) (fun n => isSceneId_scene _ n)

theorem freshRun_buildSpokes (M : MathOracle) (p : Params) :
    FreshRun isSceneId (buildSpokes M p) := by
  unfold buildSpokes
  exact freshRun_applyN (fun i => freshRun_spokeBody M p _ _ _ i) _

theorem freshRun_addBranch (M : MathOracle) (p : Params) (spread : Rat) :
    ∀ depth cx cy angle len,
      FreshRun isSceneId (addBranch M p spread depth cx cy angle len) := by
  intro depth
  induction depth with
  | zero =>
      intro cx cy angle len
      unfold addBranch
      exact freshRun_emit _ _ (fun _ => rfl) (fun _ => rfl) (fun n => isSceneId_scene _ n)
  | succ d ih =>
      intro cx cy angle len
      unfold addBranch
      exact freshRun_comp
        (freshRun_emit _ _ (fun _ => rfl) (fun _ => rfl) (fun n => isSceneId_scene _ n))
        (freshRun_withRand fun _ => freshRun_withRand fun _ =>
          freshRun_comp (ih _ _ _ _) (ih _ _ _ _))

theorem freshRun_branchRoot (M : MathOracle) (p : Params) (spread bl : Rat)
    (bd i : Nat) : FreshRun isSceneId (branchRoot M p spread bl bd i) := by
  unfold branchRoot
  intro s
  exact freshRun_addBranch M p spread bd _ _ _ _ s

theorem freshRun_buildBranches (M : MathOracle) (p : Params) :
    FreshRun isSceneId (buildBranches M p) := by
  unfold buildBranches
  exact freshRun_applyN (fun i => freshRun_branchRoot M p _ _ _ i) _

theorem freshRun_curveBody (M : MathOracle) (p : Params) (g : Nat) :
    FreshRun isSceneId (curveBody M p g) :=
  freshRun_withRand fun _ => freshRun_withRand fun _ => freshRun_withRand fun _ =>
    freshRun_emit _ _ (fun _ => rfl) (fun _ => rfl) (fun n => isSceneId_scene _ n)

theorem freshRun_buildCurves (M : MathOracle) (p : Params) :
    FreshRun isSceneId (buildCurves M p) := by
  unfold buildCurves
  exact freshRun_applyN (fun g => freshRun_curveBody M p g) _

theorem freshRun_petalBody (M : MathOracle) (p : Params) (pc i : Nat) :
    FreshRun isSceneId (petalBody M p pc i) := by
  unfold petalBody
  exact freshRun_emit _ _ (fun _ => rfl) (fun _ => rfl) (fun n => isSceneId_scene _ n)

theorem freshRun_buildPetals (M : MathOracle) (p : Params) :
    FreshRun isSceneId (buildPetals M p) := by
  unfold buildPetals
  exact freshRun_applyN (fun i => freshRun_petalBody M p _ i) _

theorem freshRun_accentBody (M : MathOracle) (p : Params) :
    FreshRun isSceneId (accentBody M p) :=
  freshRun_withRand fun _ => freshRun_withRand fun _ =>
    freshRun_withRand fun _ => freshRun_withRand fun _ =>
      freshRun_emit _ _ (fun _ => rfl) (fun _ => rfl) (fun n => isSceneId_scene _ n)

theorem freshRun_buildAccents (M : MathOracle) (p : Params) :
    FreshRun isSceneId (buildAccents M p) := by
  unfold buildAccents
  exact freshRun_applyN (fun _ => freshRun_accentBody M p) _

theorem freshRun_buildCenter (M : MathOracle) (p : Params) :
    FreshRun isSceneId (buildCenter M p) := by
  unfold buildCenter
  exact freshRun_comp (freshRun_comp (freshRun_comp (freshRun_comp
    (freshRun_emit _ _ (fun _ => rfl) (fun _ => rfl) (fun n => isSceneId_scene _ n))
    (freshRun_emit _ _ (fun _ => rfl) (fun _ => rfl) (fun n => isSceneId_scene _ n)))
    (freshRun_emit _ _ (fun _ => rfl) (fun _ => rfl) (fun n => isSceneId_scene _ n)))
    (freshRun_emit _ _ (fun _ => rfl) (fun _ => rfl) (fun n => isSceneId_scene _ n)))
    (freshRun_emit _ _ (fun _ => rfl) (fun _ => rfl) (fun n => isSceneId_scene _ n))

theorem freshRun_buildSceneBody (M : MathOracle) (p : Params) :
    FreshRun isSceneId (buildSceneBody M p) := by
  unfold buildSceneBody
  exact freshRun_comp (freshRun_comp (freshRun_comp (freshRun_comp (freshRun_comp
    (freshRun_comp (freshRun_comp (freshRun_comp
      (freshRun_emit _ _ (fun _ => rfl) (fun _ => rfl) (fun n => isSceneId_scene _ n))
      (freshRun_buildRings p))
      (freshRun_buildOrbits p))
      (freshRun_buildSpokes M p))
      (freshRun_buildBranches M p))
      (freshRun_buildCurves M p))
      (freshRun_buildPetals M p))
      (freshRun_buildAccents M p))
    (freshRun_buildCenter M p)

/-- The elements of a full build carry the scene-id counters `1..k` in
order. -/
theorem buildScene_out_spec (M : MathOracle) (p : Params) (a : Nat) :
    ((buildScene M p a).1.map (fun e => idCtrOf e.id)
        = List.range' 1 (buildScene M p a).1.length)
    ∧ ∀ e ∈ (buildScene M p a).1, isSceneId e.id := by
  obtain ⟨new, ho, _, hr, hP⟩ :=
    freshRun_buildSceneBody M p { ctr := 0, rng := rngInit p.seed, out := [] }
  have hout : (buildScene M p a).1 = new := by
    simpa [buildScene] using ho
  rw [hout]
  have : new.length = new.length := rfl
  exact ⟨by simpa using hr, hP⟩

/-- Ids of a full build are pairwise distinct. -/
theorem buildScene_ids_nodup (M : MathOracle) (p : Params) (a : Nat) :
    ((buildScene M p a).1.map (fun e => e.id)).Nodup := by
  obtain ⟨hr, _⟩ := buildScene_out_spec M p a
  have h1 : (((buildScene M p a).1.map (fun e => e.id)).map idCtrOf).Nodup := by
    rw [List.map_map]
    have : (idCtrOf ∘ fun e => e.id) = fun e : Element => idCtrOf e.id := rfl
    rw [this, hr]
    exact List.nodup_range' _ _
  exact h1.of_map

/-! ## Live stroke generators — /js/render/diff-renderer.js (v0.5),
lines 185–365.

`liveId(prefix, index, k)` increments the module-global `liveIdCounter`
(never reset) and returns `` `live-${prefix}-${index}-${k}-${liveIdCounter}` ``,
modelled by `emit (.live pfx index k)`. -/

/-- `pickRadiusBand` (lines 192–197) draws once:
`t = (bandIndex + rand())/6`, `base 140 + t * span 220`.  The single
draw is made by the caller (`withRand`); this is the resulting value. -/
def pickRadiusBand (bandIndex : Nat) (rv : Rat) : Rat :=
  140 + (((bandIndex : Rat) + rv) / 6) * 220

/-- Stroke 1 — `strokeRingArc` (lines 200–229): arc path on an outer
ring; draws: band, angleSpan, centerAngle, then stroke / width / opacity
inside the object literal. -/
def strokeRingArc (M : MathOracle) (pb : Params) (index : Nat) : GenSt → GenSt :=
  withRand fun bandDraw => withRand fun a1 => withRand fun a2 =>
    withRand fun sd => withRand fun wd => withRand fun od => fun s =>
      let r := pickRadiusBand (index % 6) bandDraw
      let angleSpan := (M.pi / 8) * (0.5 + a1)
      let centerAngle := a2 * M.pi * 2
      let start := centerAngle - angleSpan / 2
      let finish := centerAngle + angleSpan / 2
      let steps : Nat := 16
      let pts := (List.range (steps + 1)).map (fun i =>
        let t : Rat := (i : Rat) / (steps : Rat)
        let ang := start + (finish - start) * t
        let rr := r + M.sin (t * M.pi) * 8 * pb.curveBias
        (500 + rr * M.cos ang, 500 + rr * M.sin ang))
      emit (.live "arc" index 0) (fun j =>
        { id := j, type := .path, layer := some "curves", dPts := some pts,
          stroke := some (if sd < 0.5 then pb.palette.main2 else pb.palette.main3),
          strokeWidth := some (1.0 + wd * 1.8),
          opacity := some (0.24 + od * 0.2), fill := some "none" }) s

/-- The line element pushed by each `addSegment` of stroke 2
(lines 244–255). -/
def twigSegEl (pb : Params) (d : Nat) (cx cy x2 y2 : Rat) : ElemId → Element :=
  fun j =>
    { id := j, type := .line, layer := some "branches",
      x1 := some cx, y1 := some cy, x2 := some x2, y2 := some y2,
      stroke := some pb.palette.subtle,
      strokeWidth := some (max 0.7 (2.2 - (d : Rat) * 0.5)),
      opacity := some (0.18 + 0.12 * (d : Rat)) }

/-- `addSegment` of stroke 2 (lines 239–262): push, stop at depth 0,
otherwise draw length shrink and angle delta and recurse
(`angle + delta` with `kBase + 3` first, then `angle - delta` with
`kBase + 7`). -/
def addSegment (M : MathOracle) (pb : Params) (index : Nat) :
    Nat → Nat → Rat → Rat → Rat → Rat → GenSt → GenSt
  | 0, kB, cx, cy, angle, len => fun s =>
      let x2 := cx + len * M.cos angle
      let y2 := cy + len * M.sin angle
      emit (.live "tw" index (kB + 0)) (twigSegEl pb 0 cx cy x2 y2) s
  | d + 1, kB, cx, cy, angle, len => fun s =>
      let x2 := cx + len * M.cos angle
      let y2 := cy + len * M.sin angle
      let s := emit (.live "tw" index (kB + (d + 1))) (twigSegEl pb (d + 1) cx cy x2 y2) s
      withRand (fun n1 s =>
        let nextLen := len * (0.65 + n1 * 0.15)
        withRand (fun n2 s =>
          let delta := (M.pi / 10) * (0.7 + n2 * 0.4)
          addSegment M pb index d (kB + 7) x2 y2 (angle - delta) nextLen
            (addSegment M pb index d (kB + 3) x2 y2 (angle + delta) nextLen s)) s) s

/-- Stroke 2 — `strokeRadialBranch` (lines 232–269): radial twig cluster;
draws: baseAngle, length, depth coin. -/
def strokeRadialBranch (M : MathOracle) (pb : Params) (index : Nat) : GenSt → GenSt :=
  withRand fun b => withRand fun l => withRand fun d => fun s =>
    let baseAngle := b * M.pi * 2
    let startR : Rat := 160 + ((index % 5 : Nat) : Rat) * 10
    let len := 40 + l * 40
    let depth : Nat := if d < 0.4 then 2 else 1
    let sx := 500 + startR * M.cos baseAngle
    let sy := 500 + startR * M.sin baseAngle
    addSegment M pb index depth 0 sx sy baseAngle len s

/-- One petal of stroke 3 (lines 279–297): two draws (fill, opacity). -/
def petalIterBody (M : MathOracle) (pb : Params) (index : Nat)
    (radius centerAngle : Rat) (petals : Nat) (baseSize : Rat) (p : Nat) :
    GenSt → GenSt :=
  withRand fun fd => withRand fun od => fun s =>
    let ang := centerAngle + ((p : Rat) - ((petals : Rat) - 1) / 2) * (M.pi / 18)
    let cx := 500 + radius * M.cos ang
    let cy := 500 + radius * M.sin ang
    let pts := (List.range 4).map (fun k =>
      let a := ang + (k : Rat) * (M.pi / 2)
      let sc : Rat := if k % 2 = 0 then 1 else 0.55
      (cx + baseSize * sc * M.cos a, cy + baseSize * sc * M.sin a))
    emit (.live "pt" index p) (fun j =>
      { id := j, type := .polygon, layer := some "petals", points := some pts,
        fill := some (if fd < 0.5 then pb.palette.main1 else pb.palette.main2),
        opacity := some (0.38 + od * 0.18) }) s

/-- Stroke 3 — `strokePetalCluster` (lines 272–300): 3–5 petals on a
ring; draws: band, centerAngle, petal count, baseSize, then per-petal
fill and opacity. -/
def strokePetalCluster (M : MathOracle) (pb : Params) (index : Nat) : GenSt → GenSt :=
  withRand fun bandDraw => withRand fun c => withRand fun pc => withRand fun bs => fun s =>
    let radius := pickRadiusBand ((index + 2) % 6) bandDraw
    let centerAngle := c * M.pi * 2
    let petals : Nat := 3 + ratFloorNat (pc * 3)
    let baseSize := 16 + bs * 10
    applyN (petalIterBody M pb index radius centerAngle petals baseSize) petals s

/-- Stroke 4 — `strokeGlyphRune` (lines 303–337): one rotated bar near
the outer edge; draws: angle, w, h, rot. -/
def strokeGlyphRune (M : MathOracle) (pb : Params) (index : Nat) : GenSt → GenSt :=
  withRand fun a => withRand fun wv => withRand fun hv => withRand fun rv => fun s =>
    let radius : Rat := 260 + ((index % 5 : Nat) : Rat) * 6
    let angle := a * M.pi * 2
    let cx := 500 + radius * M.cos angle
    let cy := 500 + radius * M.sin angle
    let w := 14 + wv * 10
    let h := 3 + hv * 4
    let rot := rv * M.pi * 2
    let cosr := M.cos rot
    let sinr := M.sin rot
    let corners := [(-w / 2, -h / 2), (w / 2, -h / 2), (w / 2, h / 2), (-w / 2, h / 2)].map
      (fun q => (cx + q.1 * cosr - q.2 * sinr, cy + q.1 * sinr + q.2 * cosr))
    emit (.live "ru" index 0) (fun j =>
      { id := j, type := .polygon, layer := some "accents", points := some corners,
        fill := some pb.palette.main3, opacity := some 0.86 }) s

/-- One spark of stroke 5 (lines 346–361): four draws (offset angle,
radial offset, radius, opacity). -/
def sparkIterBody (M : MathOracle) (pb : Params) (index : Nat)
    (baseRadius centerAngle : Rat) (i : Nat) : GenSt → GenSt :=
  withRand fun o1 => withRand fun o2 =>
    withRand fun rv => withRand fun ov => fun s =>
      let offsetAng := (o1 - 0.5) * (M.pi / 8)
      let r := baseRadius + (o2 - 0.5) * 18
      let ang := centerAngle + offsetAng
      emit (.live "sp" index i) (fun j =>
        { id := j, type := .circle, layer := some "accents",
          cx := some (500 + r * M.cos ang), cy := some (500 + r * M.sin ang),
          r := some (1.6 + rv * 1.6),
          fill := some pb.palette.highlight,
          opacity := some (0.45 + ov * 0.2) }) s

/-- Stroke 5 — `strokeSparkCluster` (lines 340–365): 4–8 small circles;
draws: baseRadius, centerAngle, count, then per-spark offset angle,
radial offset, radius, opacity. -/
def strokeSparkCluster (M : MathOracle) (pb : Params) (index : Nat) : GenSt → GenSt :=
  withRand fun br => withRand fun ca => withRand fun cv => fun s =>
    let baseRadius := 190 + br * 120
    let centerAngle := ca * M.pi * 2
    let count : Nat := 4 + ratFloorNat (cv * 5)
    applyN (sparkIterBody M pb index baseRadius centerAngle) count s

/-! ### Freshness of live ids -/

/-- The id was made by `liveId` with motif prefix `pf`. -/
def isLivePfx (pf : String) (i : ElemId) : Prop := idPfx i = some pf

theorem isLivePfx_live (pf : String) (i k n : Nat) :
    isLivePfx pf (.live pf i k n) := rfl

theorem isLivePfx_isLiveId {pf : String} : ∀ {i : ElemId}, isLivePfx pf i → isLiveId i
  | .scene _ _, h => Option.noConfusion h
  | .live _ _ _ _, _ => trivial

theorem FreshRun.mono {P Q : ElemId → Prop} {f : GenSt → GenSt}
    (h : FreshRun P f) (hPQ : ∀ i, P i → Q i) : FreshRun Q f := by
  intro s
  obtain ⟨new, ho, hc, hr, hP⟩ := h s
  exact ⟨new, ho, hc, hr, fun e he => hPQ _ (hP e he)⟩

theorem freshRun_strokeRingArc (M : MathOracle) (pb : Params) (index : Nat) :
    FreshRun (isLivePfx "arc") (strokeRingArc M pb index) := by
  unfold strokeRingArc
  exact freshRun_withRand fun _ => freshRun_withRand fun _ => freshRun_withRand fun _ =>
    freshRun_withRand fun _ => freshRun_withRand fun _ => freshRun_withRand fun _ =>
      freshRun_emit _ _ (fun _ => rfl) (fun _ => rfl)
        (fun n => isLivePfx_live "arc" index 0 n)

theorem freshRun_addSegment (M : MathOracle) (pb : Params) (index : Nat) :
    ∀ d kB cx cy angle len,
      FreshRun (isLivePfx "tw") (addSegment M pb index d kB cx cy angle len) := by
  intro d
  induction d with
  | zero =>
      intro kB cx cy angle len
      unfold addSegment
      exact freshRun_emit _ _ (fun _ => rfl) (fun _ => rfl)
        (fun n => isLivePfx_live "tw" index _ n)
  | succ d ih =>
      intro kB cx cy angle len
      unfold addSegment
      exact freshRun_comp
        (freshRun_emit _ _ (fun _ => rfl) (fun _ => rfl)
          (fun n => isLivePfx_live "tw" index _ n))
        (freshRun_withRand fun _ => freshRun_withRand fun _ =>
          freshRun_comp (ih _ _ _ _ _) (ih _ _ _ _ _))

theorem freshRun_strokeRadialBranch (M : MathOracle) (pb : Params) (index : Nat) :
    FreshRun (isLivePfx "tw") (strokeRadialBranch M pb index) := by
  unfold strokeRadialBranch
  exact freshRun_withRand fun _ => freshRun_withRand fun _ => freshRun_withRand fun _ =>
    fun s => freshRun_addSegment M pb index _ _ _ _ _ _ s

theorem freshRun_petalIterBody (M : MathOracle) (pb : Params) (index : Nat)
    (radius centerAngle : Rat) (petals : Nat) (baseSize : Rat) (p : Nat) :
    FreshRun (isLivePfx "pt")
      (petalIterBody M pb index radius centerAngle petals baseSize p) := by
  unfold petalIterBody
  exact freshRun_withRand fun _ => freshRun_withRand fun _ =>
    freshRun_emit _ _ (fun _ => rfl) (fun _ => rfl)
      (fun n => isLivePfx_live "pt" index p n)

theorem freshRun_strokePetalCluster (M : MathOracle) (pb : Params) (index : Nat) :
    FreshRun (isLivePfx "pt") (strokePetalCluster M pb index) := by
  unfold strokePetalCluster
  exact freshRun_withRand fun _ => freshRun_withRand fun _ => freshRun_withRand fun _ =>
    freshRun_withRand fun _ => fun s =>
      freshRun_applyN (fun p => freshRun_petalIterBody M pb index _ _ _ _ p) _ s

theorem freshRun_strokeGlyphRune (M : MathOracle) (pb : Params) (index : Nat) :
    FreshRun (isLivePfx "ru") (strokeGlyphRune M pb index) := by
  unfold strokeGlyphRune
  exact freshRun_withRand fun _ => freshRun_withRand fun _ =>
    freshRun_withRand fun _ => freshRun_withRand fun _ =>
      freshRun_emit _ _ (fun _ => rfl) (fun _ => rfl)
        (fun n => isLivePfx_live "ru" index 0 n)

theorem freshRun_sparkIterBody (M : MathOracle) (pb : Params) (index : Nat)
    (baseRadius centerAngle : Rat) (i : Nat) :
    FreshRun (isLivePfx "sp") (sparkIterBody M pb index baseRadius centerAngle i) := by
  unfold sparkIterBody
  exact freshRun_withRand fun _ => freshRun_withRand fun _ =>
    freshRun_withRand fun _ => freshRun_withRand fun _ =>
      freshRun_emit _ _ (fun _ => rfl) (fun _ => rfl)
        (fun n => isLivePfx_live "sp" index i n)

theorem freshRun_strokeSparkCluster (M : MathOracle) (pb : Params) (index : Nat) :
    FreshRun (isLivePfx "sp") (strokeSparkCluster M pb index) := by
  unfold strokeSparkCluster
  exact freshRun_withRand fun _ => freshRun_withRand fun _ => freshRun_withRand fun _ =>
    fun s => freshRun_applyN (fun i => freshRun_sparkIterBody M pb index _ _ i) _ s

/-! ### Each live stroke generator emits at least one element -/

/-- The counter strictly increases: at least one push happens. -/
def CtrGrows (f : GenSt → GenSt) : Prop := ∀ s, s.ctr + 1 ≤ (f s).ctr

theorem ctrGrows_emit (mkId : Nat → ElemId) (el : ElemId → Element) :
    CtrGrows (emit mkId el) := fun _ => Nat.le_refl _

theorem ctrGrows_withRand {k : Rat → GenSt → GenSt}
    (h : ∀ r, CtrGrows (k r)) : CtrGrows (withRand k) :=
  fun s => h (rand s).1 (rand s).2

theorem ctrGrows_compRight {f g : GenSt → GenSt} (hf : CtrGrows f)
    (hg : ∀ s, s.ctr ≤ (g s).ctr) : CtrGrows (fun s => g (f s)) :=
  fun s => Nat.le_trans (hf s) (hg (f s))

theorem applyN_ctr_mono {f : Nat → GenSt → GenSt}
    (h : ∀ i s, s.ctr ≤ (f i s).ctr) : ∀ n s, s.ctr ≤ (applyN f n s).ctr
  | 0, _ => Nat.le_refl _
  | n + 1, s => Nat.le_trans (applyN_ctr_mono h n s) (h n _)

theorem ctrGrows_applyN {f : Nat → GenSt → GenSt}
    (h : ∀ i, CtrGrows (f i)) (hmono : ∀ i s, s.ctr ≤ (f i s).ctr) :
    ∀ n, 1 ≤ n → CtrGrows (applyN f n) := by
  intro n hn
  cases n with
  | zero => omega
  | succ m =>
      intro s
      exact Nat.le_trans (Nat.succ_le_succ (applyN_ctr_mono hmono m s))
        (h m (applyN f m s))

theorem ctrGrows_strokeRingArc (M : MathOracle) (pb : Params) (index : Nat) :
    CtrGrows (strokeRingArc M pb index) := by
  unfold strokeRingArc
  exact ctrGrows_withRand fun _ => ctrGrows_withRand fun _ => ctrGrows_withRand fun _ =>
    ctrGrows_withRand fun _ => ctrGrows_withRand fun _ => ctrGrows_withRand fun _ =>
      ctrGrows_emit _ _

theorem ctrGrows_addSegment (M : MathOracle) (pb : Params) (index : Nat) :
    ∀ d kB cx cy angle len,
      CtrGrows (addSegment M pb index d kB cx cy angle len) := by
  intro d
  cases d with
  | zero =>
      intro kB cx cy angle len
      unfold addSegment
      exact ctrGrows_emit _ _
  | succ d =>
      intro kB cx cy angle len
      unfold addSegment
      refine ctrGrows_compRight (ctrGrows_emit _ _) ?_
      intro t
      exact (freshRun_withRand (fun _ => freshRun_withRand fun _ =>
        freshRun_comp (freshRun_addSegment M pb index d _ _ _ _ _)
          (freshRun_addSegment M pb index d _ _ _ _ _))).ctr_le t

theorem ctrGrows_strokeRadialBranch (M : MathOracle) (pb : Params) (index : Nat) :
    CtrGrows (strokeRadialBranch M pb index) := by
  unfold strokeRadialBranch
  exact ctrGrows_withRand fun _ => ctrGrows_withRand fun _ => ctrGrows_withRand fun _ =>
    fun s => ctrGrows_addSegment M pb index _ _ _ _ _ _ s

theorem ctrMono_withRand {k : Rat → GenSt → GenSt}
    (h : ∀ r s, s.ctr ≤ (k r s).ctr) : ∀ s : GenSt, s.ctr ≤ (withRand k s).ctr :=
  fun s => h (rand s).1 (rand s).2

theorem ctrGrows_petalIterBody (M : MathOracle) (pb : Params) (index : Nat)
    (radius centerAngle : Rat) (petals : Nat) (baseSize : Rat) (p : Nat) :
    CtrGrows (petalIterBody M pb index radius centerAngle petals baseSize p) := by
  unfold petalIterBody
  exact ctrGrows_withRand fun _ => ctrGrows_withRand fun _ => ctrGrows_emit _ _

theorem ctrGrows_strokePetalCluster (M : MathOracle) (pb : Params) (index : Nat) :
    CtrGrows (strokePetalCluster M pb index) := by
  unfold strokePetalCluster
  refine ctrGrows_withRand fun _ => ctrGrows_withRand fun _ => ctrGrows_withRand fun pc =>
    ctrGrows_withRand fun _ => fun s => ?_
  exact ctrGrows_applyN
    (fun p => ctrGrows_petalIterBody M pb index _ _ _ _ p)
    (fun p t => (freshRun_petalIterBody M pb index _ _ _ _ p).ctr_le t)
    _ (by omega) s

theorem ctrGrows_strokeGlyphRune (M : MathOracle) (pb : Params) (index : Nat) :
    CtrGrows (strokeGlyphRune M pb index) := by
  unfold strokeGlyphRune
  exact ctrGrows_withRand fun _ => ctrGrows_withRand fun _ => ctrGrows_withRand fun _ =>
    ctrGrows_withRand fun _ => ctrGrows_emit _ _

theorem ctrGrows_sparkIterBody (M : MathOracle) (pb : Params) (index : Nat)
    (baseRadius centerAngle : Rat) (i : Nat) :
    CtrGrows (sparkIterBody M pb index baseRadius centerAngle i) := by
  unfold sparkIterBody
  exact ctrGrows_withRand fun _ => ctrGrows_withRand fun _ =>
    ctrGrows_withRand fun _ => ctrGrows_withRand fun _ => ctrGrows_emit _ _

theorem ctrGrows_strokeSparkCluster (M : MathOracle) (pb : Params) (index : Nat) :
    CtrGrows (strokeSparkCluster M pb index) := by
  unfold strokeSparkCluster
  refine ctrGrows_withRand fun _ => ctrGrows_withRand fun _ => ctrGrows_withRand fun cv =>
    fun s => ?_
  exact ctrGrows_applyN
    (fun i => ctrGrows_sparkIterBody M pb index _ _ i)
    (fun i t => (freshRun_sparkIterBody M pb index _ _ i).ctr_le t)
    _ (by omega) s

/-! ## `applyCharRule` — /js/render/diff-renderer.js (v0.5) lines 368–390 -/

/-- `applyCharRule(ch, index, paramsBase)`: advance the running hash with
this character (`liveHash = stepHash(liveHash, ch.charCodeAt(0), index)`),
derive `rand = makeRNG(liveHash)`, draw `r = rand()` once and partition
`[0,1)` into five equal bins selecting the stroke generator; return the
produced strokes together with their ids.  The module globals
(`liveHash`, `liveIdCounter`) are passed and returned explicitly. -/
def applyCharRule (M : MathOracle) (pb : Params) (ch : Char) (index : Nat)
    (liveHash liveCtr : Nat) : (List Element × List ElemId) × Nat × Nat :=
  let h := stepHash liveHash ch.toNat index
  let s0 : GenSt := { ctr := liveCtr, rng := rngInit h, out := [] }
  let rs := rand s0
  let s2 :=
    if rs.1 < 0.2 then strokeRingArc M pb index rs.2
    else if rs.1 < 0.4 then strokeRadialBranch M pb index rs.2
    else if rs.1 < 0.6 then strokePetalCluster M pb index rs.2
    else if rs.1 < 0.8 then strokeGlyphRune M pb index rs.2
    else strokeSparkCluster M pb index rs.2
  ((s2.out, s2.out.map (fun e => e.id)), h, s2.ctr)

/-- The live-id motif prefix selected by the first draw's bin. -/
def binPfx (r : Rat) : String :=
  if r < 0.2 then "arc"
  else if r < 0.4 then "tw"
  else if r < 0.6 then "pt"
  else if r < 0.8 then "ru"
  else "sp"

theorem applyCharRule_branchAux {g : GenSt → GenSt} {pf : String}
    (hf : FreshRun (isLivePfx pf) g) (hg : CtrGrows g) (s : GenSt)
    (hout : s.out = []) :
    ∃ els, (g s).out = els ∧ (g s).ctr = s.ctr + els.length ∧ els ≠ [] ∧
      (els.map fun e => idCtrOf e.id) = List.range' (s.ctr + 1) els.length ∧
      ∀ e ∈ els, isLivePfx pf e.id := by
  obtain ⟨new, ho, hc, hr, hP⟩ := hf s
  refine ⟨new, by rw [ho, hout]; simp, hc, ?_, hr, hP⟩
  have h1 := hg s
  intro hnil
  rw [hnil] at hc
  simp at hc
  omega

/-- Full characterisation of one `applyCharRule` call: the hash advances
by `stepHash`, the returned ids are exactly the produced elements' ids,
at least one element is produced (for every character, whitespace
included), the live counter advances by the element count, the new
elements carry the consecutive fresh counters, and they all belong to
the motif family selected by the first draw's bin. -/
theorem applyCharRule_spec (M : MathOracle) (pb : Params) (ch : Char) (index : Nat)
    (hsh c : Nat) :
    ∃ els : List Element,
      applyCharRule M pb ch index hsh c
        = ((els, els.map (fun e => e.id)), stepHash hsh ch.toNat index, c + els.length)
      ∧ els ≠ []
      ∧ (els.map fun e => idCtrOf e.id) = List.range' (c + 1) els.length
      ∧ ∀ e ∈ els, isLivePfx
          (binPfx (rand { ctr := c, rng := rngInit (stepHash hsh ch.toNat index),
                          out := [] } : Rat × GenSt).1) e.id := by
  unfold applyCharRule
  set s0 : GenSt :=
    { ctr := c, rng := rngInit (stepHash hsh ch.toNat index), out := [] } with hs0
  by_cases h1 : (rand s0).1 < 0.2
  · obtain ⟨els, ho, hc, hne, hr, hP⟩ :=
      applyCharRule_branchAux (freshRun_strokeRingArc M pb index)
        (ctrGrows_strokeRingArc M pb index) (rand s0).2 rfl
    refine ⟨els, ?_, hne, by simpa using hr, ?_⟩
    · simp only [if_pos h1, ho, hc]; rfl
    · intro e he; unfold binPfx; rw [if_pos h1]; exact hP e he
  · by_cases h2 : (rand s0).1 < 0.4
    · obtain ⟨els, ho, hc, hne, hr, hP⟩ :=
        applyCharRule_branchAux (freshRun_strokeRadialBranch M pb index)
          (ctrGrows_strokeRadialBranch M pb index) (rand s0).2 rfl
      refine ⟨els, ?_, hne, by simpa using hr, ?_⟩
      · simp only [if_neg h1, if_pos h2, ho, hc]; rfl
      · intro e he; unfold binPfx; rw [if_neg h1, if_pos h2]; exact hP e he
    · by_cases h3 : (rand s0).1 < 0.6
      · obtain ⟨els, ho, hc, hne, hr, hP⟩ :=
          applyCharRule_branchAux (freshRun_strokePetalCluster M pb index)
            (ctrGrows_strokePetalCluster M pb index) (rand s0).2 rfl
        refine ⟨els, ?_, hne, by simpa using hr, ?_⟩
        · simp only [if_neg h1, if_neg h2, if_pos h3, ho, hc]; rfl
        · intro e he; unfold binPfx; rw [if_neg h1, if_neg h2, if_pos h3]
          exact hP e he
      · by_cases h4 : (rand s0).1 < 0.8
        · obtain ⟨els, ho, hc, hne, hr, hP⟩ :=
            applyCharRule_branchAux (freshRun_strokeGlyphRune M pb index)
              (ctrGrows_strokeGlyphRune M pb index) (rand s0).2 rfl
          refine ⟨els, ?_, hne, by simpa using hr, ?_⟩
          · simp only [if_neg h1, if_neg h2, if_neg h3, if_pos h4, ho, hc]; rfl
          · intro e he; unfold binPfx
            rw [if_neg h1, if_neg h2, if_neg h3, if_pos h4]
            exact hP e he
        · obtain ⟨els, ho, hc, hne, hr, hP⟩ :=
            applyCharRule_branchAux (freshRun_strokeSparkCluster M pb index)
              (ctrGrows_strokeSparkCluster M pb index) (rand s0).2 rfl
          refine ⟨els, ?_, hne, by simpa using hr, ?_⟩
          · simp only [if_neg h1, if_neg h2, if_neg h3, if_neg h4, ho, hc]; rfl
          · intro e he; unfold binPfx
            rw [if_neg h1, if_neg h2, if_neg h3, if_neg h4]
            exact hP e he

/-! ## The append loop (v0.5 lines 423–429) -/

/-- JS array element assignment `xs[i] = v`: in-place for `i < length`,
otherwise the array grows (intermediate holes behave like empty slots in
the truncate branch, whose `Array.isArray` guard skips them). -/
def jsSet (xs : List (List ElemId)) (i : Nat) (v : List ElemId) :
    List (List ElemId) :=
  if i < xs.length then xs.set i v
  else xs ++ List.replicate (i - xs.length) [] ++ [v]

theorem jsSet_append (xs : List (List ElemId)) (v : List ElemId) :
    jsSet xs xs.length v = xs ++ [v] := by
  unfold jsSet
  rw [if_neg (lt_irrefl _)]
  simp

/-- The `for (let i = 0; i < added.length; i++)` loop of the append
branch: per appended character, run `applyCharRule` at its absolute
index, record its ids at its slot, accumulate the produced elements. -/
def applyChars (M : MathOracle) (pb : Params) :
    List Char → Nat → List (List ElemId) → Nat → Nat →
    List Element × List (List ElemId) × Nat × Nat
  | [], _, charEls, hsh, c => ([], charEls, hsh, c)
  | ch :: rest, idx, charEls, hsh, c =>
      let step := applyCharRule M pb ch idx hsh c
      let charEls1 := jsSet charEls idx step.1.2
      let next := applyChars M pb rest (idx + 1) charEls1 step.2.1 step.2.2
      (step.1.1 ++ next.1, next.2)

/-- Characterisation of the append loop started at index
`charEls.length` (the handler always starts it at `oldText.length`,
which equals the slot count): it appends one slot per character, the
slots' ids are exactly the new elements' ids in order, the new elements
carry consecutive fresh live counters, and the live counter advances by
the number of new elements. -/
theorem applyChars_spec (M : MathOracle) (pb : Params) :
    ∀ (cs : List Char) (charEls : List (List ElemId)) (hsh c : Nat),
    ∃ (adds : List Element) (slots : List (List ElemId)) (h' : Nat),
      applyChars M pb cs charEls.length charEls hsh c
        = (adds, charEls ++ slots, h', c + adds.length)
      ∧ slots.length = cs.length
      ∧ slots.flatten = adds.map (fun e => e.id)
      ∧ (adds.map fun e => idCtrOf e.id) = List.range' (c + 1) adds.length
      ∧ ∀ e ∈ adds, isLiveId e.id := by
  intro cs
  induction cs with
  | nil =>
      intro charEls hsh c
      exact ⟨[], [], hsh, by simp [applyChars], by simp, by simp, by simp, by simp⟩
  | cons ch rest ih =>
      intro charEls hsh c
      obtain ⟨els, hstep, hne, hr, hP⟩ := applyCharRule_spec M pb ch charEls.length hsh c
      obtain ⟨adds', slots', h'', hloop, hlen', hflat', hr', hP'⟩ :=
        ih (charEls ++ [els.map (fun e => e.id)]) (stepHash hsh ch.toNat charEls.length)
          (c + els.length)
      refine ⟨els ++ adds', els.map (fun e => e.id) :: slots', h'', ?_, ?_, ?_, ?_, ?_⟩
      · show applyChars M pb (ch :: rest) charEls.length charEls hsh c = _
        unfold applyChars
        rw [hstep]
        simp only
        rw [jsSet_append]
        have hidx : charEls.length + 1 = (charEls ++ [els.map (fun e => e.id)]).length := by
          simp
        rw [hidx, hloop]
        simp [List.append_assoc, Nat.add_assoc]
      · simp [hlen']
      · simp only [List.flatten_cons, hflat', List.map_append]
      · rw [List.map_append, hr, hr']
        rw [show c + els.length + 1 = c + 1 + els.length by omega]
        have h3 := List.range'_append (c + 1) els.length adds'.length 1
        simp only [Nat.one_mul] at h3
        rw [h3, List.length_append, Nat.add_comm adds'.length els.length]
      · intro e he
        rcases List.mem_append.mp he with h | h
        · exact isLivePfx_isLiveId (hP e h)
        · exact hP' e h

/-! ## Live state machine — /js/render/diff-renderer.js (v0.5),
lines 44–54, 115–170, 394–476 -/

/-- Modelled from the spec: `buildParamsFromText` lives in
/js/engine/text-seed.js, which is not among the provided sources.  §6
requires it to be pure and deterministic; §3 requires a 32-bit `seed`, a
palette of named colour roles, a positive `symmetry`, bounded numeric
knobs and a small `layoutMode` index.  Any concrete pure derivation of
that shape fits the contract; the claims only rely on purity. -/
def buildParamsFromText (text : List Char) (paletteMode : String) : Params :=
  let h := (text.foldl (fun (a : Nat × Nat) c => (stepHash a.1 c.toNat a.2, a.2 + 1))
    (0x9e3779b9, 0)).1
  { seed := h
    palette :=
      { main1 := "main1-" ++ paletteMode
        main2 := "main2-" ++ paletteMode
        main3 := "main3-" ++ paletteMode
        subtle := "subtle-" ++ paletteMode
        highlight := "highlight-" ++ paletteMode
        backgroundInner := "bgInner-" ++ paletteMode
        backgroundOuter := "bgOuter-" ++ paletteMode }
    symmetry := 3 + h % 4
    detailLevel := (((h / 4) % 3 : Nat) : Rat)
    structureLevel := (((h / 16) % 2 : Nat) : Rat) / 2
    curveBias := (((h / 64) % 4 : Nat) : Rat) / 4
    accentLevel := (((h / 256) % 8 : Nat) : Rat)
    layoutMode := (h / 2048) % 4 }

/-- A render call issued by the engine: a full organic render
(`renderSceneOrganic`) or an incremental diff (`renderSceneDiff`).  The
empty-text placeholder writes static markup and issues neither. -/
inductive RenderEvent where
  | full (elements : List Element)
  | diff (oldElements newElements : List Element)
deriving DecidableEq, Repr

/-- The live incremental state (v0.5 lines 45–51) together with the
module globals `liveHash` (line 54) and `liveIdCounter` (line 185). -/
structure LiveState where
  initialised : Bool
  text : List Char
  paramsBase : Option Params
  elements : List Element
  charElements : List (List ElemId)
  liveHash : Nat
  liveIdCounter : Nat
deriving DecidableEq, Repr

/-- Module state at load: `liveState` starts empty (lines 45–51),
`liveHash = 0x9e3779b9` (line 54), `liveIdCounter = 0` (line 185). -/
def initLiveState : LiveState :=
  { initialised := false, text := [], paramsBase := none, elements := [],
    charElements := [], liveHash := 0x9e3779b9, liveIdCounter := 0 }

/-- `renderFromText(text, paletteMode)` (v0.5 lines 126–170), restricted
to its effect on the live state and the scene render calls it issues.
Empty text writes the placeholder markup (no scene render call) and runs
`clearLiveState()` (lines 115–122) — every live field reset and
`liveHash` reseeded to `0x9e3779b9`; `liveIdCounter` is a separate
module global that is never reset.  Non-empty text derives a fresh
parameter bundle, runs `buildScene` (whose output is independent of the
ambient scene id counter, see `buildScene`), renders the scene fully and
seeds the live state from it (lines 163–169). -/
def renderFromTextModel (M : MathOracle) (text : List Char) (paletteMode : String)
    (st : LiveState) : LiveState × List RenderEvent :=
  if text = [] then
    ({ initialised := false, text := [], paramsBase := none, elements := [],
       charElements := [], liveHash := 0x9e3779b9,
       liveIdCounter := st.liveIdCounter }, [])
  else
    let params := buildParamsFromText text paletteMode
    let scene := (buildScene M params 0).1
    ({ initialised := true, text := text, paramsBase := some params,
       elements := scene, charElements := List.replicate text.length [],
       liveHash := 0x9e3779b9, liveIdCounter := st.liveIdCounter },
     [RenderEvent.full scene])

/-- The `res = applyChars …` call of the append branch: the appended
suffix is processed starting at absolute index `oldText.length`. -/
def appendRes (M : MathOracle) (pb : Params) (trimmed : List Char)
    (st : LiveState) : List Element × List (List ElemId) × Nat × Nat :=
  applyChars M pb (trimmed.drop st.text.length) st.text.length
    st.charElements st.liveHash st.liveIdCounter

/-- `idsToRemove` of the truncate branch: the union of the tail slots
`charElements.slice(trimmed.length, trimmed.length + removedCount)`
(every slot is an array here, so the `Array.isArray` guard always
passes). -/
def removedIdSet (trimmed : List Char) (st : LiveState) : List ElemId :=
  ((st.charElements.drop trimmed.length).take
    (st.text.length - trimmed.length)).flatten

/-- `handleLiveTextChange(newTextRaw, paletteMode)` (v0.5 lines 394–476):
trim; empty clears; uninitialised (or missing bundle) rebuilds; unchanged
is a no-op; pure append runs the per-character loop and diffs; pure
truncation removes exactly the tail slots' elements and diffs; anything
else rebuilds. -/
def handleLiveTextChange (M : MathOracle) (newTextRaw : List Char)
    (paletteMode : String) (st : LiveState) : LiveState × List RenderEvent :=
  if jsTrim newTextRaw = [] then
    renderFromTextModel M [] paletteMode st
  else
    match st.paramsBase with
    | none => renderFromTextModel M (jsTrim newTextRaw) paletteMode st
    | some pb =>
      if st.initialised = false then
        renderFromTextModel M (jsTrim newTextRaw) paletteMode st
      else if jsTrim newTextRaw = st.text then
        (st, [])
      else if startsWithL (jsTrim newTextRaw) st.text then
        ({ st with
            elements := st.elements ++ (appendRes M pb (jsTrim newTextRaw) st).1,
            charElements := (appendRes M pb (jsTrim newTextRaw) st).2.1,
            text := jsTrim newTextRaw,
            liveHash := (appendRes M pb (jsTrim newTextRaw) st).2.2.1,
            liveIdCounter := (appendRes M pb (jsTrim newTextRaw) st).2.2.2 },
         [RenderEvent.diff st.elements
            (st.elements ++ (appendRes M pb (jsTrim newTextRaw) st).1)])
      else if startsWithL st.text (jsTrim newTextRaw) then
        ({ st with
            elements := st.elements.filter
              (fun e => decide (e.id ∉ removedIdSet (jsTrim newTextRaw) st)),
            charElements := st.charElements.take (jsTrim newTextRaw).length,
            text := jsTrim newTextRaw },
         [RenderEvent.diff st.elements
            (st.elements.filter
              (fun e => decide (e.id ∉ removedIdSet (jsTrim newTextRaw) st)))])
      else
        renderFromTextModel M (jsTrim newTextRaw) paletteMode st

/-- One editing event: either the debounced change handler on arbitrary
raw input, or the generate button (`handleGenerateClick`, which calls
`renderFromText` on the trimmed non-empty input directly). -/
inductive Step (M : MathOracle) : LiveState → LiveState → Prop where
  | change (raw : List Char) (mode : String) (st : LiveState) :
      Step M st (handleLiveTextChange M raw mode st).1
  | generate (text : List Char) (mode : String) (st : LiveState)
      (ht : jsTrim text = text) (hne : text ≠ []) :
      Step M st (renderFromTextModel M text mode st).1

/-- States reachable in an editing session from module load. -/
def Reachable (M : MathOracle) (st : LiveState) : Prop :=
  Relation.ReflTransGen (Step M) initLiveState st

/-- Ids of a full build (the "initial full build" part of the live
element list). -/
def sceneIds (M : MathOracle) (p : Params) : List ElemId :=
  (buildScene M p 0).1.map (fun e => e.id)

/-- Session invariant.  Uninitialised states are fully cleared.  In an
initialised state: the stored text is non-empty and trim-fixed, there is
one `charElements` slot per character, the element list's ids are exactly
the initial build's ids followed by the slots' ids in order, ids are
pairwise distinct, and every live id's counter is bounded by the module
`liveIdCounter`. -/
def SessionInv (M : MathOracle) (st : LiveState) : Prop :=
  (st.initialised = false →
    st.text = [] ∧ st.paramsBase = none ∧ st.elements = [] ∧ st.charElements = []
      ∧ st.liveHash = 0x9e3779b9)
  ∧ (st.initialised = true →
    ∃ pb, st.paramsBase = some pb
      ∧ st.text ≠ [] ∧ jsTrim st.text = st.text
      ∧ st.charElements.length = st.text.length
      ∧ st.elements.map (fun e => e.id) = sceneIds M pb ++ st.charElements.flatten
      ∧ (st.elements.map (fun e => e.id)).Nodup
      ∧ ∀ i ∈ st.elements.map (fun e => e.id), liveCtrOf i ≤ st.liveIdCounter)

/-! ### Session invariant: helper lemmas -/

theorem dropWhile_self (q : Char → Bool) (l : List Char) :
    List.dropWhile q (List.dropWhile q l) = List.dropWhile q l := by
  cases h : List.dropWhile q l with
  | nil => simp
  | cons a t =>
      have h2 := List.head?_dropWhile_not q l
      rw [h] at h2
      simp at h2
      rw [List.dropWhile_cons]
      simp [h2]

theorem jsTrim_idem (s : List Char) : jsTrim (jsTrim s) = jsTrim s := by
  unfold jsTrim
  have h1 : List.dropWhile isJsSpace
      (((s.dropWhile isJsSpace).reverse.dropWhile isJsSpace).reverse)
      = ((s.dropWhile isJsSpace).reverse.dropWhile isJsSpace).reverse := by
    cases hvr : ((s.dropWhile isJsSpace).reverse.dropWhile isJsSpace).reverse with
    | nil => simp
    | cons a t =>
        have hsplit := List.takeWhile_append_dropWhile isJsSpace
          (s.dropWhile isJsSpace).reverse
        have hu2 : s.dropWhile isJsSpace
            = ((s.dropWhile isJsSpace).reverse.dropWhile isJsSpace).reverse
              ++ ((s.dropWhile isJsSpace).reverse.takeWhile isJsSpace).reverse := by
          conv_lhs => rw [← List.reverse_reverse (s.dropWhile isJsSpace), ← hsplit]
          rw [List.reverse_append]
        have hhead : (s.dropWhile isJsSpace).head? = some a := by
          rw [hu2, hvr]; simp
        have h2 := List.head?_dropWhile_not isJsSpace s
        rw [hhead] at h2
        simp at h2
        rw [List.dropWhile_cons]
        simp [h2]
  rw [h1, List.reverse_reverse, dropWhile_self]

theorem startsWithL_decomp {l p : List Char} (h : startsWithL l p = true) :
    p ++ l.drop p.length = l := by
  simp only [startsWithL, decide_eq_true_eq] at h
  conv_rhs => rw [← List.take_append_drop p.length l]
  rw [h]

theorem startsWithL_length_le {l p : List Char} (h : startsWithL l p = true) :
    p.length ≤ l.length := by
  have h1 := congrArg List.length (startsWithL_decomp h)
  simp at h1
  omega

theorem startsWithL_append (p s : List Char) :
    startsWithL (p ++ s) p = true := by
  simp [startsWithL]

theorem liveCtrOf_of_isLiveId : ∀ {i : ElemId}, isLiveId i → liveCtrOf i = idCtrOf i
  | .live _ _ _ _, _ => rfl
  | .scene _ _, h => h.elim

theorem liveCtrOf_of_isSceneId : ∀ {i : ElemId}, isSceneId i → liveCtrOf i = 0
  | .scene _ _, _ => rfl
  | .live _ _ _ _, h => h.elim

theorem sceneIds_nodup (M : MathOracle) (p : Params) : (sceneIds M p).Nodup :=
  buildScene_ids_nodup M p 0

theorem sceneIds_scene (M : MathOracle) (p : Params) :
    ∀ i ∈ sceneIds M p, isSceneId i := by
  intro i hi
  obtain ⟨e, he, rfl⟩ := List.mem_map.mp hi
  exact (buildScene_out_spec M p 0).2 e he

theorem nodup_ids_of_ctr {l : List Element} {s n : Nat}
    (h : (l.map fun e => idCtrOf e.id) = List.range' s n) :
    (l.map (fun e => e.id)).Nodup := by
  have h1 : ((l.map (fun e => e.id)).map idCtrOf).Nodup := by
    rw [List.map_map]
    have h2 : (idCtrOf ∘ fun e : Element => e.id) = fun e : Element => idCtrOf e.id :=
      rfl
    rw [h2, h]
    exact List.nodup_range' _ _
  exact h1.of_map

theorem adds_fresh_disjoint {old adds : List Element} {c n : Nat}
    (hbound : ∀ i ∈ old.map (fun e => e.id), liveCtrOf i ≤ c)
    (hrange : (adds.map fun e => idCtrOf e.id) = List.range' (c + 1) n)
    (hlive : ∀ e ∈ adds, isLiveId e.id) :
    List.Disjoint (old.map fun e => e.id) (adds.map fun e => e.id) := by
  intro a ha hb
  obtain ⟨e, he, hea⟩ := List.mem_map.mp hb
  have h1 : idCtrOf e.id ∈ List.range' (c + 1) n := by
    rw [← hrange]
    exact List.mem_map.mpr ⟨e, he, rfl⟩
  have h2 := (List.mem_range'_1.mp h1).1
  have h3 := hbound _ ha
  rw [← hea, liveCtrOf_of_isLiveId (hlive e he)] at h3
  omega

/-- A full rebuild (or a clear, for empty text) establishes the session
invariant whenever the text it is given is trim-fixed — which is how the
source always calls it (with `trimmed`, or with `inputEl.value.trim()`). -/
theorem inv_renderFromText (M : MathOracle) (t : List Char) (mode : String)
    (st : LiveState) (ht : jsTrim t = t) :
    SessionInv M (renderFromTextModel M t mode st).1 := by
  unfold renderFromTextModel
  by_cases h0 : t = []
  · rw [if_pos h0]
    exact ⟨fun _ => ⟨rfl, rfl, rfl, rfl, rfl⟩, fun h => by simp at h⟩
  · rw [if_neg h0]
    refine ⟨fun h => by simp at h, fun _ => ?_⟩
    refine ⟨buildParamsFromText t mode, rfl, h0, ht, by simp, ?_, ?_, ?_⟩
    · show (buildScene M (buildParamsFromText t mode) 0).1.map (fun e => e.id)
        = sceneIds M (buildParamsFromText t mode)
          ++ (List.replicate t.length ([] : List ElemId)).flatten
      simp [sceneIds]
    · exact buildScene_ids_nodup M _ 0
    · intro i hi
      have hs : isSceneId i := sceneIds_scene M (buildParamsFromText t mode) i hi
      rw [liveCtrOf_of_isSceneId hs]
      exact Nat.zero_le _

/-- The change handler preserves the session invariant. -/
theorem inv_handle (M : MathOracle) (raw : List Char) (mode : String)
    (st : LiveState) (h : SessionInv M st) :
    SessionInv M (handleLiveTextChange M raw mode st).1 := by
  unfold handleLiveTextChange
  by_cases h0 : jsTrim raw = []
  · rw [if_pos h0]
    exact inv_renderFromText M [] mode st rfl
  · rw [if_neg h0]
    cases hpb : st.paramsBase with
    | none => exact inv_renderFromText M (jsTrim raw) mode st (jsTrim_idem raw)
    | some pb =>
      dsimp only
      by_cases hinit : st.initialised = false
      · rw [if_pos hinit]
        exact inv_renderFromText M (jsTrim raw) mode st (jsTrim_idem raw)
      · have hinit' : st.initialised = true := by
          cases hb : st.initialised
          · exact absurd hb hinit
          · rfl
        rw [if_neg hinit]
        obtain ⟨pb', hpb', htne, htrim, hlen, hmap, hnd, hbound⟩ := h.2 hinit'
        have hpbe : pb' = pb := by
          rw [hpb] at hpb'
          exact (Option.some_injective _ hpb'.symm)
        rw [hpbe] at hmap
        by_cases heq : jsTrim raw = st.text
        · rw [if_pos heq]
          exact h
        · rw [if_neg heq]
          by_cases happ : startsWithL (jsTrim raw) st.text = true
          · rw [if_pos happ]
            -- append branch
            obtain ⟨adds, slots, h', hloop, hslen, hflat, hrange, hlive⟩ :=
              applyChars_spec M pb ((jsTrim raw).drop st.text.length)
                st.charElements st.liveHash st.liveIdCounter
            rw [hlen] at hloop
            have hres : appendRes M pb (jsTrim raw) st
                = (adds, st.charElements ++ slots, h',
                   st.liveIdCounter + adds.length) := by
              unfold appendRes
              exact hloop
            rw [hres]
            have hdec : st.text ++ (jsTrim raw).drop st.text.length = jsTrim raw :=
              startsWithL_decomp happ
            have hlentxt := congrArg List.length hdec
            simp only [List.length_append, List.length_drop] at hlentxt
            refine ⟨fun hf => Bool.noConfusion (hinit'.symm.trans hf), fun _ => ?_⟩
            refine ⟨pb, rfl, h0, jsTrim_idem raw, ?_, ?_, ?_, ?_⟩
            · show (st.charElements ++ slots).length = (jsTrim raw).length
              rw [List.length_append, hslen, hlen, List.length_drop]
              omega
            · show (st.elements ++ adds).map (fun e => e.id)
                = sceneIds M pb ++ (st.charElements ++ slots).flatten
              rw [List.map_append, hmap, List.flatten_append, hflat,
                List.append_assoc]
            · show ((st.elements ++ adds).map (fun e => e.id)).Nodup
              rw [List.map_append, List.nodup_append]
              exact ⟨hnd, nodup_ids_of_ctr hrange,
                adds_fresh_disjoint hbound hrange hlive⟩
            · show ∀ i ∈ (st.elements ++ adds).map (fun e => e.id),
                liveCtrOf i ≤ st.liveIdCounter + adds.length
              intro i hi
              rw [List.map_append] at hi
              rcases List.mem_append.mp hi with hh | hh
              · exact le_trans (hbound i hh) (Nat.le_add_right _ _)
              · obtain ⟨e, he, hea⟩ := List.mem_map.mp hh
                have h1 : idCtrOf e.id
                    ∈ List.range' (st.liveIdCounter + 1) adds.length := by
                  rw [← hrange]
                  exact List.mem_map.mpr ⟨e, he, rfl⟩
                have h2 := (List.mem_range'_1.mp h1).2
                rw [← hea, liveCtrOf_of_isLiveId (hlive e he)]
                omega
          · rw [if_neg happ]
            by_cases htr : startsWithL st.text (jsTrim raw) = true
            · rw [if_pos htr]
              -- truncate branch
              have hle : (jsTrim raw).length ≤ st.text.length :=
                startsWithL_length_le htr
              have hremEq : removedIdSet (jsTrim raw) st
                  = (st.charElements.drop (jsTrim raw).length).flatten := by
                unfold removedIdSet
                congr 1
                apply List.take_of_length_le
                rw [List.length_drop, hlen]
              have hsplitC :=
                List.take_append_drop (jsTrim raw).length st.charElements
              have hmap2 : st.elements.map (fun e => e.id)
                  = (sceneIds M pb
                      ++ (st.charElements.take (jsTrim raw).length).flatten)
                    ++ (st.charElements.drop (jsTrim raw).length).flatten := by
                rw [hmap]
                conv_lhs => rw [← hsplitC, List.flatten_append]
                exact (List.append_assoc _ _ _).symm
              obtain ⟨E1, E2, hE, hE1, hE2⟩ := List.map_eq_append_iff.mp hmap2
              have hnd2 : ((sceneIds M pb
                  ++ (st.charElements.take (jsTrim raw).length).flatten)
                  ++ (st.charElements.drop (jsTrim raw).length).flatten).Nodup :=
                hmap2 ▸ hnd
              obtain ⟨hndL, hndR, hdisj⟩ := List.nodup_append.mp hnd2
              have hfilter : st.elements.filter
                  (fun e => decide (e.id ∉ removedIdSet (jsTrim raw) st)) = E1 := by
                rw [hremEq, hE, List.filter_append]
                have f1 : E1.filter (fun e =>
                    decide (e.id ∉ (st.charElements.drop (jsTrim raw).length).flatten))
                    = E1 := by
                  rw [List.filter_eq_self]
                  intro e he
                  simp only [decide_eq_true_eq]
                  intro hmem
                  exact hdisj (by rw [← hE1]; exact List.mem_map.mpr ⟨e, he, rfl⟩) hmem
                have f2 : E2.filter (fun e =>
                    decide (e.id ∉ (st.charElements.drop (jsTrim raw).length).flatten))
                    = [] := by
                  rw [List.filter_eq_nil_iff]
                  intro e he
                  simp only [decide_eq_true_eq, Decidable.not_not]
                  rw [← hE2]
                  exact List.mem_map.mpr ⟨e, he, rfl⟩
                rw [f1, f2, List.append_nil]
              rw [hfilter]
              refine ⟨fun hf => Bool.noConfusion (hinit'.symm.trans hf), fun _ => ?_⟩
              refine ⟨pb, rfl, h0, jsTrim_idem raw, ?_, ?_, ?_, ?_⟩
              · show (st.charElements.take (jsTrim raw).length).length
                  = (jsTrim raw).length
                rw [List.length_take, hlen]
                omega
              · show E1.map (fun e => e.id)
                  = sceneIds M pb
                    ++ (st.charElements.take (jsTrim raw).length).flatten
                exact hE1
              · show (E1.map (fun e => e.id)).Nodup
                rw [hE1]
                exact hndL
              · show ∀ i ∈ E1.map (fun e => e.id), liveCtrOf i ≤ st.liveIdCounter
                intro i hi
                apply hbound
                rw [hE, List.map_append]
                exact List.mem_append_left _ hi
            · rw [if_neg htr]
              exact inv_renderFromText M (jsTrim raw) mode st (jsTrim_idem raw)

/-! ### Branch equations and reachability -/

theorem handle_empty_eq (M : MathOracle) (raw : List Char) (mode : String)
    (st : LiveState) (h0 : jsTrim raw = []) :
    handleLiveTextChange M raw mode st
      = ({ initialised := false, text := [], paramsBase := none, elements := [],
           charElements := [], liveHash := 0x9e3779b9,
           liveIdCounter := st.liveIdCounter }, []) := by
  unfold handleLiveTextChange
  rw [if_pos h0]
  unfold renderFromTextModel
  rw [if_pos rfl]

theorem handle_append_eq (M : MathOracle) (mode : String) (st : LiveState)
    (pb : Params) (raw : List Char)
    (h0 : ¬ jsTrim raw = []) (hpb : st.paramsBase = some pb)
    (hinit : st.initialised = true) (hne : ¬ jsTrim raw = st.text)
    (happ : startsWithL (jsTrim raw) st.text = true) :
    handleLiveTextChange M raw mode st
      = ({ st with
            elements := st.elements ++ (appendRes M pb (jsTrim raw) st).1,
            charElements := (appendRes M pb (jsTrim raw) st).2.1,
            text := jsTrim raw,
            liveHash := (appendRes M pb (jsTrim raw) st).2.2.1,
            liveIdCounter := (appendRes M pb (jsTrim raw) st).2.2.2 },
         [RenderEvent.diff st.elements
            (st.elements ++ (appendRes M pb (jsTrim raw) st).1)]) := by
  unfold handleLiveTextChange
  rw [if_neg h0, hpb]
  dsimp only
  rw [if_neg (by simp [hinit]), if_neg hne, if_pos happ]

theorem handle_trunc_eq (M : MathOracle) (mode : String) (st : LiveState)
    (pb : Params) (raw : List Char)
    (h0 : ¬ jsTrim raw = []) (hpb : st.paramsBase = some pb)
    (hinit : st.initialised = true) (hne : ¬ jsTrim raw = st.text)
    (happ : ¬ startsWithL (jsTrim raw) st.text = true)
    (htr : startsWithL st.text (jsTrim raw) = true) :
    handleLiveTextChange M raw mode st
      = ({ st with
            elements := st.elements.filter
              (fun e => decide (e.id ∉ removedIdSet (jsTrim raw) st)),
            charElements := st.charElements.take (jsTrim raw).length,
            text := jsTrim raw },
         [RenderEvent.diff st.elements
            (st.elements.filter
              (fun e => decide (e.id ∉ removedIdSet (jsTrim raw) st)))]) := by
  unfold handleLiveTextChange
  rw [if_neg h0, hpb]
  dsimp only
  rw [if_neg (by simp [hinit]), if_neg hne, if_neg happ, if_pos htr]

theorem handle_unchanged_eq (M : MathOracle) (mode : String) (st : LiveState)
    (pb : Params) (raw : List Char)
    (h0 : ¬ jsTrim raw = []) (hpb : st.paramsBase = some pb)
    (hinit : st.initialised = true) (heq : jsTrim raw = st.text) :
    handleLiveTextChange M raw mode st = (st, []) := by
  unfold handleLiveTextChange
  rw [if_neg h0, hpb]
  dsimp only
  rw [if_neg (by simp [hinit]), if_pos heq]

theorem inv_init (M : MathOracle) : SessionInv M initLiveState :=
  ⟨fun _ => ⟨rfl, rfl, rfl, rfl, rfl⟩, fun h => Bool.noConfusion h⟩

/-- Every reachable state of an editing session satisfies the session
invariant. -/
theorem inv_reachable (M : MathOracle) (st : LiveState) (h : Reachable M st) :
    SessionInv M st := by
  induction h with
  | refl => exact inv_init M
  | tail hsteps hstep ih =>
      cases hstep
      case change raw mode => exact inv_handle M raw mode _ ih
      case generate text mode ht hne => exact inv_renderFromText M text mode _ ht

/-! ### Append followed by matching truncation restores the elements -/


/-- From any invariant-satisfying initialised state, one append event for
a suffix `s` followed by one truncation event back to the original text
restores the element list exactly: the truncation removes exactly and
only the elements the appended characters introduced. -/
theorem append_truncate_elements (M : MathOracle) (mode1 mode2 : String)
    (st : LiveState) (s : List Char) (hInv : SessionInv M st)
    (hInit : st.initialised = true) (hs : s ≠ [])
    (htrim : jsTrim (st.text ++ s) = st.text ++ s) :
    ((handleLiveTextChange M st.text mode2
        (handleLiveTextChange M (st.text ++ s) mode1 st).1).1).elements
      = st.elements
    ∧ ((handleLiveTextChange M st.text mode2
        (handleLiveTextChange M (st.text ++ s) mode1 st).1).1).charElements
      = st.charElements
    ∧ ((handleLiveTextChange M st.text mode2
        (handleLiveTextChange M (st.text ++ s) mode1 st).1).1).text
      = st.text := by
  obtain ⟨pb, hpb, htne, htrimst, hlen, hmap, hnd, hbound⟩ := hInv.2 hInit
  have hslen0 : s.length ≠ 0 := fun hc => hs (List.length_eq_zero.mp hc)
  -- conditions for the first (append) event
  have h01 : ¬ jsTrim (st.text ++ s) = [] := by
    rw [htrim]
    simp [List.append_eq_nil, hs]
  have hne1 : ¬ jsTrim (st.text ++ s) = st.text := by
    rw [htrim]
    intro hcontra
    have h1 := congrArg List.length hcontra
    simp only [List.length_append] at h1
    omega
  have happ1 : startsWithL (jsTrim (st.text ++ s)) st.text = true := by
    rw [htrim]
    exact startsWithL_append _ _
  have heq1 := handle_append_eq M mode1 st pb (st.text ++ s) h01 hpb hInit hne1 happ1
  rw [htrim] at heq1
  obtain ⟨adds, slots, h', hloop, hslen, hflat, hrange, hlive⟩ :=
    applyChars_spec M pb s st.charElements st.liveHash st.liveIdCounter
  have hres : appendRes M pb (st.text ++ s) st
      = (adds, st.charElements ++ slots, h', st.liveIdCounter + adds.length) := by
    unfold appendRes
    rw [show (st.text ++ s).drop st.text.length = s from List.drop_left _ _, ← hlen]
    exact hloop
  rw [hres] at heq1
  rw [heq1]
  dsimp only
  -- conditions for the second (truncate) event
  have h02 : ¬ jsTrim st.text = [] := by rw [htrimst]; exact htne
  have hne2 : ¬ jsTrim st.text = st.text ++ s := by
    rw [htrimst]
    intro hcontra
    have h1 := congrArg List.length hcontra
    simp only [List.length_append] at h1
    omega
  have happ2 : ¬ startsWithL (jsTrim st.text) (st.text ++ s) = true := by
    rw [htrimst]
    intro hcontra
    have h1 := startsWithL_length_le hcontra
    simp only [List.length_append] at h1
    omega
  have htr2 : startsWithL (st.text ++ s) (jsTrim st.text) = true := by
    rw [htrimst]
    exact startsWithL_append _ _
  set stA : LiveState :=
    { st with
        elements := st.elements ++ adds,
        charElements := st.charElements ++ slots,
        text := st.text ++ s,
        liveHash := h',
        liveIdCounter := st.liveIdCounter + adds.length } with hstA
  have heq2 := handle_trunc_eq M mode2 stA pb st.text h02 hpb hInit hne2 happ2 htr2
  rw [heq2]
  dsimp only
  -- the removed id set is exactly the appended elements' ids
  have hrem : removedIdSet (jsTrim st.text) stA = adds.map (fun e => e.id) := by
    unfold removedIdSet
    rw [htrimst]
    show (((st.charElements ++ slots).drop st.text.length).take
      ((st.text ++ s).length - st.text.length)).flatten = _
    have hcount : (st.text ++ s).length - st.text.length = s.length := by simp
    have hdrop : (st.charElements ++ slots).drop st.text.length = slots := by
      rw [← hlen]
      exact List.drop_left _ _
    rw [hcount, hdrop, List.take_of_length_le (le_of_eq hslen), hflat]
  -- the filter removes exactly the appended block
  have hfilter : (st.elements ++ adds).filter
      (fun e => decide (e.id ∉ removedIdSet (jsTrim st.text) stA)) = st.elements := by
    rw [hrem, List.filter_append]
    have hdisj := adds_fresh_disjoint hbound hrange hlive
    have f1 : st.elements.filter
        (fun e => decide (e.id ∉ adds.map (fun e => e.id))) = st.elements := by
      rw [List.filter_eq_self]
      intro e he
      simp only [decide_eq_true_eq]
      exact hdisj (List.mem_map.mpr ⟨e, he, rfl⟩)
    have f2 : adds.filter
        (fun e => decide (e.id ∉ adds.map (fun e => e.id))) = [] := by
      rw [List.filter_eq_nil_iff]
      intro e he
      simp only [decide_eq_true_eq, Decidable.not_not]
      exact List.mem_map.mpr ⟨e, he, rfl⟩
    rw [f1, f2, List.append_nil]
  refine ⟨?_, ?_, ?_⟩
  · show (st.elements ++ adds).filter
      (fun e => decide (e.id ∉ removedIdSet (jsTrim st.text) stA)) = st.elements
    exact hfilter
  · show (st.charElements ++ slots).take (jsTrim st.text).length = st.charElements
    rw [htrimst, ← hlen]
    exact List.take_left _ _
  · exact htrimst

/-! ## DOM diff renderer — src/unnamed/part_000 (diff-renderer v0.3)

`renderSceneDiff(hostElement, oldElements, newElements, options)`:

* no `<svg>` in the host → full organic render of `newElements`;
* otherwise `existingById` is collected from the DOM (`.insig-piece`
  nodes with a truthy `dataset.id`) — **not** from `oldElements`, which
  the function never reads; DOM ids absent from `newElements`' truthy
  ids are faded out and removed; elements of `newElements` whose truthy
  id has no DOM node are created (via the render collaborator's
  `createNodeForElement`, modelled from the spec §6 as total) and
  appended in list order.

The host is modelled by the (optional) list of the SVG's piece-node ids
in document order; a JS falsy id is the empty string.  `existingById` is
an object keyed by id, so duplicate DOM ids collapse (the claims only
concern duplicate-free hosts, where `dedup` is the identity). -/

structure RElem (α : Type) where
  id : String
  fields : α
deriving DecidableEq, Repr

structure DiffOutcome (α : Type) where
  fullRender : Bool
  removedIds : List String
  added : List (RElem α)
deriving DecidableEq, Repr

def renderSceneDiff {α : Type} [DecidableEq α] (dom : Option (List String))
    (oldElements newElements : List (RElem α)) : DiffOutcome α :=
  match dom with
  | none => { fullRender := true, removedIds := [], added := [] }
  | some nodes =>
    let existingIds := (nodes.filter (fun s => decide (s ≠ ""))).dedup
    let newIds := (newElements.filter (fun el => decide (el.id ≠ ""))).map
      (fun el => el.id)
    { fullRender := false
      removedIds := existingIds.filter (fun i => decide (i ∉ newIds))
      added := newElements.filter
        (fun el => decide (el.id ≠ "" ∧ el.id ∉ existingIds)) }

/-- When the host's piece ids are exactly `A`'s ids (the caller's
invariant: the SVG currently displays `A`), the diff is pure ID-set
comparison: additions are `B`'s elements with fresh ids in `B`'s order,
removals are `A`'s ids missing from `B`, and an id present on both
sides is neither added nor removed regardless of field contents. -/
theorem renderSceneDiff_spec {α : Type} [DecidableEq α] (A B : List (RElem α))
    (hA : ∀ e ∈ A, e.id ≠ "") (hB : ∀ e ∈ B, e.id ≠ "")
    (hnodup : (A.map (fun e => e.id)).Nodup) :
    (renderSceneDiff (some (A.map (fun e => e.id))) A B).added
        = B.filter (fun e => decide (e.id ∉ A.map (fun e => e.id)))
    ∧ (renderSceneDiff (some (A.map (fun e => e.id))) A B).removedIds
        = (A.map (fun e => e.id)).filter
            (fun i => decide (i ∉ B.map (fun e => e.id)))
    ∧ ∀ i, i ∈ A.map (fun e => e.id) → i ∈ B.map (fun e => e.id) →
        i ∉ (renderSceneDiff (some (A.map (fun e => e.id))) A B).removedIds
        ∧ ∀ e ∈ (renderSceneDiff (some (A.map (fun e => e.id))) A B).added,
            e.id ≠ i := by
  simp only [renderSceneDiff]
  have hAfilter : (A.map (fun e => e.id)).filter (fun s => decide (s ≠ ""))
      = A.map (fun e => e.id) := by
    rw [List.filter_eq_self]
    intro a ha
    obtain ⟨e, he, rfl⟩ := List.mem_map.mp ha
    simpa using hA e he
  have hBfilter : B.filter (fun el => decide (el.id ≠ "")) = B := by
    rw [List.filter_eq_self]
    intro e he
    simpa using hB e he
  rw [hAfilter, List.dedup_eq_self.mpr hnodup, hBfilter]
  have hadded : B.filter
      (fun el => decide (el.id ≠ "" ∧ el.id ∉ A.map (fun e => e.id)))
      = B.filter (fun e => decide (e.id ∉ A.map (fun e => e.id))) := by
    apply List.filter_congr
    intro e he
    simp [hB e he]
  rw [hadded]
  refine ⟨rfl, rfl, ?_⟩
  intro i hiA hiB
  constructor
  · intro hmem
    have h1 := List.of_mem_filter hmem
    simp only [decide_eq_true_eq] at h1
    exact h1 hiB
  · intro e hmem hei
    have h1 := List.of_mem_filter hmem
    simp only [decide_eq_true_eq] at h1
    rw [hei] at h1
    exact h1 hiA

/-! ## Claims -/

/-- Concrete oracle for witnesses: any fixed pure `cos`/`sin`/`pi`
models the JS Math functions for evaluation purposes. -/
def M0 : MathOracle := { cos := fun _ => 0, sin := fun _ => 0, pi := 0 }

/-- Concrete parameter bundle for counterexample evaluation. -/
def pb0 : Params :=
  { seed := 1
    palette :=
      { main1 := "m1", main2 := "m2", main3 := "m3", subtle := "su",
        highlight := "hi", backgroundInner := "b1", backgroundOuter := "b2" }
    symmetry := 1
    detailLevel := 0
    structureLevel := 0
    curveBias := 0
    accentLevel := 0
    layoutMode := 0 }

/-- The live state after one full build from the text `"ok"`. -/
def okState : LiveState :=
  (handleLiveTextChange M0 ['o', 'k'] "auto" initLiveState).1

def cexA : List (RElem Nat) := [{ id := "a", fields := 0 }, { id := "b", fields := 1 }]

def cexB : List (RElem Nat) := [{ id := "b", fields := 5 }, { id := "c", fields := 7 }]

/-- C1 (counterexample): as stated, the claim fails — `renderSceneDiff`
never reads `oldElements`; removals are computed from the ids of the
nodes currently in the host's SVG.  With host ids `["x"]`, `A = []` and
`B = []`, the claim predicts `removedIds = ids(A) \ ids(B) = ∅`, but the
code schedules the DOM node `"x"` for removal. -/
theorem claim_C1_counterexample :
    (renderSceneDiff (some ["x"]) ([] : List (RElem Unit)) []).removedIds ≠ [] := by
  decide

/-- C1 (amended): when the host SVG's piece nodes carry exactly `A`'s
ids — the caller's invariant, since the handler always diffs against the
scene it last rendered — the diff is pure ID-set comparison:
`added` is exactly `B`'s elements whose id is absent from `A`'s id set,
in `B`'s order; `removedIds` is exactly `A`'s ids absent from `B`; and
an id present in both lists is neither added nor removed even if the
two elements' fields differ. -/
theorem claim_C1 {α : Type} [DecidableEq α] (A B : List (RElem α))
    (hA : ∀ e ∈ A, e.id ≠ "") (hB : ∀ e ∈ B, e.id ≠ "")
    (hnodup : (A.map (fun e => e.id)).Nodup) :
    (renderSceneDiff (some (A.map (fun e => e.id))) A B).added
        = B.filter (fun e => decide (e.id ∉ A.map (fun e => e.id)))
    ∧ (renderSceneDiff (some (A.map (fun e => e.id))) A B).removedIds
        = (A.map (fun e => e.id)).filter
            (fun i => decide (i ∉ B.map (fun e => e.id)))
    ∧ ∀ i, i ∈ A.map (fun e => e.id) → i ∈ B.map (fun e => e.id) →
        i ∉ (renderSceneDiff (some (A.map (fun e => e.id))) A B).removedIds
        ∧ ∀ e ∈ (renderSceneDiff (some (A.map (fun e => e.id))) A B).added,
            e.id ≠ i :=
  renderSceneDiff_spec A B hA hB hnodup

theorem claim_C1_witness :
    (cexA.map (fun e => e.id)).Nodup
    ∧ ((renderSceneDiff (some (cexA.map (fun e => e.id))) cexA cexB).added
        = cexB.filter (fun e => decide (e.id ∉ cexA.map (fun e => e.id)))
      ∧ (renderSceneDiff (some (cexA.map (fun e => e.id))) cexA cexB).removedIds
          = (cexA.map (fun e => e.id)).filter
              (fun i => decide (i ∉ cexB.map (fun e => e.id)))
      ∧ ∀ i, i ∈ cexA.map (fun e => e.id) → i ∈ cexB.map (fun e => e.id) →
          i ∉ (renderSceneDiff (some (cexA.map (fun e => e.id))) cexA cexB).removedIds
          ∧ ∀ e ∈ (renderSceneDiff (some (cexA.map (fun e => e.id))) cexA cexB).added,
              e.id ≠ i) :=
  ⟨by decide, claim_C1 cexA cexB (by decide) (by decide) (by decide)⟩

/-- C2: for a fixed `(text, paletteMode)`, two full-scene builds produce
identical outputs (same ids, same field values, same order) whatever the
ambient module id counter left by earlier calls: `buildScene` resets the
counter and reseeds its RNG stream from `params.seed` on entry. -/
theorem claim_C2 (M : MathOracle) (text : List Char) (mode : String)
    (a b : Nat) :
    buildScene M (buildParamsFromText text mode) a
      = buildScene M (buildParamsFromText text mode) b := rfl

/-- C3: from every invariant-satisfying initialised live state, appending
the characters of a suffix `s` through the change handler and then
truncating the text back to its previous value restores the live element
list to an equal ID-set: the truncation removes exactly and only the
elements the appended characters introduced. -/
theorem claim_C3 (M : MathOracle) (mode1 mode2 : String) (st : LiveState)
    (s : List Char) (hInv : SessionInv M st) (hInit : st.initialised = true)
    (hs : s ≠ []) (htrim : jsTrim (st.text ++ s) = st.text ++ s) :
    (((handleLiveTextChange M st.text mode2
        (handleLiveTextChange M (st.text ++ s) mode1 st).1).1).elements.map
          (fun e => e.id)).toFinset
      = (st.elements.map (fun e => e.id)).toFinset := by
  rw [(append_truncate_elements M mode1 mode2 st s hInv hInit hs htrim).1]

theorem claim_C3_witness :
    okState.initialised = true
    ∧ (((handleLiveTextChange M0 okState.text "auto"
        (handleLiveTextChange M0 (okState.text ++ ['!']) "auto" okState).1).1).elements.map
          (fun e => e.id)).toFinset
      = (okState.elements.map (fun e => e.id)).toFinset :=
  ⟨rfl, claim_C3 M0 "auto" "auto" okState ['!']
    (inv_handle M0 ['o', 'k'] "auto" initLiveState (inv_init M0)) rfl
    (by decide) rfl⟩

/-- C4: at every reachable state of an editing session the live element
list's ids are pairwise distinct, and every single `buildScene` output
likewise has pairwise distinct ids. -/
theorem claim_C4 (M : MathOracle) (st : LiveState) (h : Reachable M st) :
    (st.elements.map (fun e => e.id)).Nodup
    ∧ ∀ (p : Params) (a : Nat),
        ((buildScene M p a).1.map (fun e => e.id)).Nodup := by
  have hi := inv_reachable M st h
  constructor
  · cases hb : st.initialised
    · obtain ⟨_, _, he, _, _⟩ := hi.1 hb
      rw [he]
      simp
    · obtain ⟨pb, _, _, _, _, _, hnd, _⟩ := hi.2 hb
      exact hnd
  · intro p a
    exact buildScene_ids_nodup M p a

theorem claim_C4_witness :
    (initLiveState.elements.map (fun e => e.id)).Nodup
    ∧ ∀ (p : Params) (a : Nat),
        ((buildScene M0 p a).1.map (fun e => e.id)).Nodup :=
  claim_C4 M0 initLiveState Relation.ReflTransGen.refl

/-- C5 (counterexample): the claim's classification table fails on the
code — `applyCharRule` (v0.5) selects the stroke generator from the
first RNG draw's 20%-bin, never from the character class, and every one
of the five generators emits at least one element.  In particular a
whitespace character (which reaches `applyCharRule` through the append
branch whenever it is interior, e.g. old text `"ok"`, new text `"ok a"`)
produces a non-empty element batch, contradicting "whitespace produces
no elements". -/
theorem claim_C5_counterexample :
    (applyCharRule M0 pb0 ' ' 2 0x9e3779b9 0).1.1 ≠ [] := by
  obtain ⟨els, heq, hne, _, _⟩ := applyCharRule_spec M0 pb0 ' ' 2 0x9e3779b9 0
  rw [heq]
  exact hne

/-- C5 (amended): for every appended character, `applyCharRule` advances
the running hash with `stepHash`, derives the RNG from the new hash and
draws once; the stroke generator is selected by the draw's 20%-bin
(arc / twig / petal / rune / spark), independently of the character's
classification; every invocation — whitespace included — produces at
least one element, and the returned id list is exactly the produced
elements' ids (the append branch records it at the character's
`charElements` slot). -/
theorem claim_C5 (M : MathOracle) (pb : Params) (ch : Char)
    (index hsh c : Nat) :
    (applyCharRule M pb ch index hsh c).2.1 = stepHash hsh ch.toNat index
    ∧ (applyCharRule M pb ch index hsh c).1.1 ≠ []
    ∧ (applyCharRule M pb ch index hsh c).1.2
        = (applyCharRule M pb ch index hsh c).1.1.map (fun e => e.id)
    ∧ ∀ e ∈ (applyCharRule M pb ch index hsh c).1.1,
        idPfx e.id = some (binPfx (rand
          { ctr := c, rng := rngInit (stepHash hsh ch.toNat index),
            out := [] }).1) := by
  obtain ⟨els, heq, hne, hr, hP⟩ := applyCharRule_spec M pb ch index hsh c
  rw [heq]
  exact ⟨rfl, hne, rfl, hP⟩

/-- C6: at every reachable initialised state, `charElements` has exactly
one slot per character of the stored text, and the ID-set of the live
element list is exactly the initial full build's ids united with the ids
recorded in the slots. -/
theorem claim_C6 (M : MathOracle) (st : LiveState) (h : Reachable M st)
    (hinit : st.initialised = true) :
    st.charElements.length = st.text.length
    ∧ ∃ pb, st.paramsBase = some pb
        ∧ (st.elements.map (fun e => e.id)).toFinset
            = (sceneIds M pb).toFinset ∪ st.charElements.flatten.toFinset := by
  have hi := inv_reachable M st h
  obtain ⟨pb, hpb, _, _, hlen, hmap, _, _⟩ := hi.2 hinit
  refine ⟨hlen, pb, hpb, ?_⟩
  rw [hmap, List.toFinset_append]

theorem claim_C6_witness :
    okState.charElements.length = okState.text.length
    ∧ ∃ pb, okState.paramsBase = some pb
        ∧ (okState.elements.map (fun e => e.id)).toFinset
            = (sceneIds M0 pb).toFinset ∪ okState.charElements.flatten.toFinset :=
  claim_C6 M0 okState
    (Relation.ReflTransGen.single (Step.change ['o', 'k'] "auto" initLiveState)) rfl

/-- C7: whenever the change handler receives raw text whose trimmed form
is empty, it clears all live state: `initialised` becomes false, the text
becomes empty, the parameter bundle becomes `none`, the element list and
`charElements` become empty, and the running hash is reseeded to the
fixed constant `0x9e3779b9` (the separate module-global `liveIdCounter`
is never reset). -/
theorem claim_C7 (M : MathOracle) (raw : List Char) (mode : String)
    (st : LiveState) (h : jsTrim raw = []) :
    (handleLiveTextChange M raw mode st).1
      = { initialised := false, text := [], paramsBase := none, elements := [],
          charElements := [], liveHash := 0x9e3779b9,
          liveIdCounter := st.liveIdCounter } := by
  rw [handle_empty_eq M raw mode st h]

theorem claim_C7_witness :
    jsTrim [' ', '\t'] = []
    ∧ (handleLiveTextChange M0 [' ', '\t'] "auto" initLiveState).1
      = { initialised := false, text := [], paramsBase := none, elements := [],
          charElements := [], liveHash := 0x9e3779b9,
          liveIdCounter := initLiveState.liveIdCounter } :=
  ⟨by decide, claim_C7 M0 [' ', '\t'] "auto" initLiveState (by decide)⟩

/-- C8: on any session state satisfying the invariant, a change-handler
call whose raw text trims to the stored text mutates nothing and issues
no render or diff call — the handler returns the state unchanged with an
empty event list. -/
theorem claim_C8 (M : MathOracle) (raw : List Char) (mode : String)
    (st : LiveState) (hInv : SessionInv M st) (heq : jsTrim raw = st.text) :
    handleLiveTextChange M raw mode st = (st, []) := by
  by_cases h0 : jsTrim raw = []
  · have htxt : st.text = [] := by rw [← heq, h0]
    have hinit : st.initialised = false := by
      cases hb : st.initialised
      · rfl
      · obtain ⟨pb, _, hne, _, _, _, _, _⟩ := hInv.2 hb
        exact absurd htxt hne
    obtain ⟨h1, h2, h3, h4, h5⟩ := hInv.1 hinit
    rw [handle_empty_eq M raw mode st h0]
    have hst : ({ initialised := false, text := [], paramsBase := none,
                  elements := [], charElements := [], liveHash := 0x9e3779b9,
                  liveIdCounter := st.liveIdCounter } : LiveState) = st := by
      cases st with
      | mk a b c d e f g =>
          dsimp only at h1 h2 h3 h4 h5 hinit
          subst hinit h1 h2 h3 h4 h5
          rfl
    rw [hst]
  · have hinit : st.initialised = true := by
      cases hb : st.initialised
      · obtain ⟨h1, _⟩ := hInv.1 hb
        rw [heq] at h0
        exact absurd h1 h0
      · rfl
    obtain ⟨pb, hpb, _⟩ := hInv.2 hinit
    exact handle_unchanged_eq M mode st pb raw h0 hpb hinit heq

theorem claim_C8_witness :
    jsTrim [] = initLiveState.text
    ∧ handleLiveTextChange M0 [] "auto" initLiveState = (initLiveState, []) :=
  ⟨rfl, claim_C8 M0 [] "auto" initLiveState (inv_init M0) rfl⟩

/-- C9: `stepHash` is a pure function (a Lean `def` of its three
arguments) returning a 32-bit unsigned value for all natural inputs; it
folds its inputs through `current XOR (charCode + index * 0x45d9f3b)`
reduced mod 2^32 — so shifting `current` or `charCode` by 2^32 leaves
the result unchanged — and its mixing constants `0x45d9f3b`,
`0x85ebca6b` and `0xc2b2ae35` are odd. -/
theorem claim_C9 (current chCode index : Nat) :
    stepHash current chCode index < 4294967296
    ∧ stepHash (current + 4294967296) chCode index
        = stepHash current chCode index
    ∧ stepHash current (chCode + 4294967296) index
        = stepHash current chCode index
    ∧ 0x45d9f3b % 2 = 1 ∧ 0x85ebca6b % 2 = 1 ∧ 0xc2b2ae35 % 2 = 1 := by
  have hb : ∀ x : Nat, u32 x < 2 ^ 32 := fun x => by
    show x % 4294967296 < 2 ^ 32
    norm_num
    omega
  have hsh : ∀ a k : Nat, a < 2 ^ 32 → a >>> k < 2 ^ 32 := fun a k ha =>
    lt_of_le_of_lt
      (by rw [Nat.shiftRight_eq_div_pow]; exact Nat.div_le_self _ _) ha
  have main : ∀ y : Nat, u32 y ^^^ (u32 y >>> 16) < 2 ^ 32 := fun y =>
    Nat.xor_lt_two_pow (hb y) (hsh _ _ (hb y))
  refine ⟨?_, ?_, ?_, by norm_num, by norm_num, by norm_num⟩
  · rw [show (4294967296 : Nat) = 2 ^ 32 by norm_num]
    exact main _
  · simp only [stepHash, u32, Nat.add_mod_right]
  · have h1 : chCode + 4294967296 + index * 0x45d9f3b
        = chCode + index * 0x45d9f3b + 4294967296 := by omega
    simp only [stepHash, u32, h1, Nat.add_mod_right]

/-- C10: the diffing renderer's behaviour is independent of its
`oldElements` argument — the function never reads it; removals come from
the ids of the nodes currently in the host's SVG and additions from
`newElements` checked against those same ids. -/
theorem claim_C10 {α : Type} [DecidableEq α] (dom : Option (List String))
    (old1 old2 newElements : List (RElem α)) :
    renderSceneDiff dom old1 newElements
      = renderSceneDiff dom old2 newElements := rfl
